import Mathlib

/-!
Verification development for the NanoBananaEditor repository.

This file gives a shallow embedding, in Lean 4, of the parts of the source
relevant to the history tree (HistoryPanel.tsx), the application store
(useAppStore.ts), the canvas stroke capture/render paths (ImageCanvas),
the mask rasterization geometry (falService), the generation/edit
orchestrator hooks (useImageGeneration / useImageEditing) and the
clear-session handler (PromptComposer), together with theorems settling
the stated properties.

Conventions of the embedding:
* JavaScript numbers are modelled as rationals (`ℚ`), array indices and
  timestamps as `Nat`, optional (possibly-`undefined`) fields as `Option`.
* The `Map` of tree nodes keyed by node id is modelled through the list of
  its keys in insertion order plus per-key data; the identification of a
  mutable node object with its id is exact whenever all node ids are
  pairwise distinct and distinct from the synthetic id "blank-root",
  which the theorems that need it state as hypotheses.
* The unbounded recursion of the layout passes is modelled with an
  explicit fuel parameter: `none` means the recursion did not complete
  within the given call depth, and "the source recursion terminates"
  corresponds to `∃ fuel, … ≠ none`.
-/

namespace NanoBanana

/-! ## Data model (src/types, part_003) -/

/-- Asset role: TS union 'original' | 'mask' | 'output'. -/
inductive AssetRole
  | original
  | mask
  | output
deriving Repr, DecidableEq

/-- `Asset` record from src/types (part_003). -/
structure Asset where
  id : String
  type : AssetRole
  url : String
  mime : String
  width : Nat
  height : Nat
  checksum : String
deriving Repr, DecidableEq

/-- `GridLayout` record from src/types (part_003). -/
structure GridLayout where
  order : List Nat
  columns : Nat
deriving Repr, DecidableEq

/-- `BrushStroke` record from src/types (part_003): `points` is the flat
array [x0, y0, x1, y1, …] in visual-grid space.  The declared `color`
field is never supplied at the creation sites (ImageCanvas
`handleMouseUp`), so it is modelled as optional. -/
structure BrushStroke where
  id : String
  points : List ℚ
  brushSize : ℚ
  color : Option String := none
deriving Repr, DecidableEq

/-- Generation kind: TS union 'root' | 'iteration'. -/
inductive GenKind
  | root
  | iteration
deriving Repr, DecidableEq

/-- The nested `parameters` object of a `Generation`. -/
structure GenParameters where
  seed : Option Int
  temperature : Option ℚ
deriving Repr, DecidableEq

/-- `Generation` record from src/types (part_003). -/
structure Generation where
  id : String
  prompt : String
  parameters : GenParameters
  sourceAssets : List Asset
  outputAssets : List Asset
  modelVersion : String
  timestamp : Nat
  gridLayout : Option GridLayout
  parentGenerationId : Option String
  type : GenKind
  brushStrokes : Option (List BrushStroke) := none
deriving Repr, DecidableEq

/-- `Edit` record from src/types (part_003). -/
structure Edit where
  id : String
  parentGenerationId : Option String
  parentEditId : Option String
  maskAssetId : Option String
  maskReferenceAsset : Option Asset := none
  instruction : String
  outputAssets : List Asset
  gridLayout : Option GridLayout
  timestamp : Nat
  brushStrokes : Option (List BrushStroke) := none
deriving Repr, DecidableEq

/-- `Project` record from src/types (part_003). -/
structure Project where
  id : String
  title : String
  generations : List Generation
  edits : List Edit
  createdAt : Nat
  updatedAt : Nat
deriving Repr, DecidableEq

/-! ## History tree builder (HistoryPanel.tsx, lines 163-373)

Constants from the tree-building effect: `nodeWidth = 64`,
`nodeHeight = 64`, `verticalSpacing = 80`, `horizontalSpacing = 16`. -/

def nodeWidth : ℚ := 64

def nodeHeight : ℚ := 64

def verticalSpacing : ℚ := 80

def horizontalSpacing : ℚ := 16

/-- The id of the always-synthesized blank root node. -/
def blankRootId : String := "blank-root"

/-- The parent reference an Edit contributes when edit relationships are
built (HistoryPanel.tsx lines 260-266): `parentEditId` is consulted
first, `parentGenerationId` only when it is absent. -/
def editParentRef (e : Edit) : Option String :=
  match e.parentEditId with
  | some p => some p
  | none => e.parentGenerationId

/-- The keys of the `treeNodes` map in insertion order: the blank root,
then every generation, then every edit (HistoryPanel.tsx lines 187-241).
Exact for pairwise-distinct ids (a duplicate id would overwrite instead
of inserting). -/
def treeNodeIds (pr : Project) : List String :=
  blankRootId :: (pr.generations.map Generation.id ++ pr.edits.map Edit.id)

/-- Membership in the `treeNodes` map (what `treeNodes.get(id)` finding an
entry means). -/
def inTreeNodes (pr : Project) (id : String) : Bool :=
  id ∈ treeNodeIds pr

/-- The children list of the map node keyed `pid`, in push order
(HistoryPanel.tsx lines 211-272): root-kind generations are pushed onto
the blank root while generations are added; then the generations loop
pushes every generation whose `parentGenerationId` resolves in the map;
then the edits loop pushes every edit whose parent reference resolves.
A push only happens when the parent lookup succeeds, hence the
`inTreeNodes` guard. -/
def childrenOf (pr : Project) (pid : String) : List String :=
  if inTreeNodes pr pid then
    (if pid = blankRootId then
      (pr.generations.filter (fun g => g.type = GenKind.root)).map Generation.id
    else []) ++
    (pr.generations.filter (fun g => g.parentGenerationId = some pid)).map Generation.id ++
    (pr.edits.filter (fun e => editParentRef e = some pid)).map Edit.id
  else []

/-- Run a fallible function over a list, failing as soon as one element
fails (the behaviour of the source recursions: each recursive call on a
child must complete). -/
def traverseOption (g : α → Option β) : List α → Option (List β)
  | [] => some []
  | c :: rest =>
    match g c, traverseOption g rest with
    | some w, some ws => some (w :: ws)
    | _, _ => none

/-- Child subtree widths summed with the inter-child spacing, as the
width pass accumulates them (`totalChildWidth + spacingWidth`). -/
def rowWidth (pairs : List (String × ℚ)) : ℚ :=
  (pairs.map Prod.snd).foldl (· + ·) 0 + ((pairs.length - 1 : Nat) : ℚ) * horizontalSpacing

/-- First pass of `positionTree` (HistoryPanel.tsx lines 277-293):
`calculateSubtreeWidth`.  A leaf is `nodeWidth` wide; an inner node is
`max nodeWidth (Σ child widths + (childCount−1)·horizontalSpacing)`.
The source recursion has no cycle detection; the fuel parameter makes
it total, `none` marking a run that exceeds the given depth. -/
def calculateSubtreeWidth (pr : Project) : Nat → String → Option ℚ
  | 0, _ => none
  | fuel + 1, n =>
    let cs := childrenOf pr n
    if cs.isEmpty then some nodeWidth
    else
      match traverseOption (calculateSubtreeWidth pr fuel) cs with
      | none => none
      | some ws =>
        some (max nodeWidth (ws.foldl (· + ·) 0 + ((cs.length - 1 : Nat) : ℚ) * horizontalSpacing))

/-- One (id, x, y) assignment produced by the position pass. -/
abbrev Assign := String × ℚ × ℚ

/-- The loop body of the second pass (HistoryPanel.tsx lines 310-317):
children paired with their precomputed subtree widths are laid out left
to right starting at `currentX`; each child's center is
`currentX + width/2`, recursing at `y` (already `y + verticalSpacing` at
the call site), and `currentX` advances by `width + horizontalSpacing`.
`rec` is the recursive positioning call for a child. -/
def positionChildren (rec : String → ℚ → ℚ → Option (List Assign)) :
    List (String × ℚ) → ℚ → ℚ → Option (List Assign)
  | [], _, _ => some []
  | (c, w) :: rest, currentX, y =>
    match rec c (currentX + w / 2) y,
          positionChildren rec rest (currentX + w + horizontalSpacing) y with
    | some l1, some l2 => some (l1 ++ l2)
    | _, _ => none

/-- Second pass of `positionTree` (HistoryPanel.tsx lines 296-321):
`positionSubtree`.  A leaf is placed at `centerX − nodeWidth/2`; an inner
node computes its children's widths, lays the children out from
`centerX − totalWidth/2` at `y + verticalSpacing`, and places itself at
`centerX − nodeWidth/2`.  The assignment for the node itself comes first
in the returned list, its children's assignments after (the source
mutates each node's x/y at its visit). -/
def positionSubtree (pr : Project) : Nat → String → ℚ → ℚ → Option (List Assign)
  | 0, _, _, _ => none
  | fuel + 1, n, centerX, y =>
    let cs := childrenOf pr n
    if cs.isEmpty then some [(n, centerX - nodeWidth / 2, y)]
    else
      match traverseOption (calculateSubtreeWidth pr fuel) cs with
      | none => none
      | some ws =>
        let totalWidth := ws.foldl (· + ·) 0 + ((cs.length - 1 : Nat) : ℚ) * horizontalSpacing
        match positionChildren (positionSubtree pr fuel) (cs.zip ws)
                (centerX - totalWidth / 2) (y + verticalSpacing) with
        | none => none
        | some lc => some ((n, centerX - nodeWidth / 2, y) :: lc)

/-- The whole layout run (HistoryPanel.tsx lines 330-361): the root list
holds exactly the blank root, so the forest width is the blank root's
subtree width and the inter-tree gap sum is 0; the viewport width falls
back to the history panel width while the stage is unmeasured; the
forest starts at `max 50 ((viewport − total)/2)` and `positionTree`
positions the blank root's subtree from there at y = 50. -/
def treeAssignments (pr : Project) (stageWidth histPanelWidth : ℚ) (fuel : Nat) :
    Option (List Assign) :=
  match calculateSubtreeWidth pr fuel blankRootId with
  | none => none
  | some w =>
    let viewportWidth := if stageWidth > 0 then stageWidth else histPanelWidth
    let startX := max 50 ((viewportWidth - w) / 2)
    positionSubtree pr fuel blankRootId (startX + w / 2) 50

/-- Position of a node id after the layout run: the last assignment the
traversal wrote for it, or the initial (0, 0) the node was created with
(HistoryPanel.tsx lines 206, 218-219, 237-238) when the traversal never
reached it. -/
def lookupPosition (assigns : List Assign) (id : String) : ℚ × ℚ :=
  match (assigns.filter (fun a => a.1 = id)).getLast? with
  | some a => a.2
  | none => (0, 0)

/-- The positioned display nodes (HistoryPanel.tsx lines 363-371):
`Array.from(treeNodes.values())` converts EVERY map entry — attached or
not — to a display node carrying whatever x/y it holds. -/
def buildDisplayNodes (pr : Project) (stageWidth histPanelWidth : ℚ) (fuel : Nat) :
    Option (List (String × ℚ × ℚ)) :=
  match treeAssignments pr stageWidth histPanelWidth fuel with
  | none => none
  | some assigns => some ((treeNodeIds pr).map (fun id => (id, lookupPosition assigns id)))

/-- Two display nodes' `nodeWidth × nodeHeight` bounding boxes at
positions `p` and `q` overlap (share interior area). -/
def boxesOverlap (p q : ℚ × ℚ) : Prop :=
  p.1 < q.1 + nodeWidth ∧ q.1 < p.1 + nodeWidth ∧
  p.2 < q.2 + nodeHeight ∧ q.2 < p.2 + nodeHeight

instance (p q : ℚ × ℚ) : Decidable (boxesOverlap p q) := by
  unfold boxesOverlap; infer_instance

/-! ## Application store (useAppStore.ts) and session state

The store state is modelled by the fields the verified operations touch;
purely presentational fields (panel widths, tool flags, modal state) are
omitted.  `activeNodeId` is HistoryPanel component state but lives in the
same record since `handleTreeNodeClick` updates it together with the
store. -/

/-- Display node kind: TS union 'generation' | 'edit'. -/
inductive NodeKind
  | generation
  | edit
deriving Repr, DecidableEq

/-- The `currentNodeDetails` record of the store. -/
structure NodeDetails where
  prompt : String
  nodeType : NodeKind
  modelVersion : Option String := none
  temperature : Option ℚ := none
  seed : Option Int := none
  timestamp : Nat
  outputAssets : List Asset
deriving Repr, DecidableEq

/-- The store state (useAppStore.ts lines 99-127), restricted to the
fields the embedded operations read or write. -/
structure AppState where
  currentProject : Option Project
  canvasImages : List Asset
  canvasGridLayout : GridLayout
  canvasZoom : ℚ
  canvasPan : ℚ × ℚ
  brushStrokes : List BrushStroke
  brushSize : ℚ
  isGenerating : Bool
  currentPrompt : String
  temperature : ℚ
  seed : Option Int
  selectedGenerationId : Option String
  selectedEditId : Option String
  currentNodeDetails : Option NodeDetails
  activeNodeId : Option String
deriving Repr, DecidableEq

/-- `Math.ceil(Math.sqrt(n))` on a natural count. -/
def ceilSqrt (n : Nat) : Nat :=
  let r := Nat.sqrt n
  if r * r = n then r else r + 1

/-- The grid layout recomputed whenever the canvas image set changes
(`order` is the identity permutation, `columns = ceil(sqrt N)`). -/
def freshGridLayout (images : List Asset) : GridLayout :=
  { order := List.range images.length, columns := ceilSqrt images.length }

/-- `setCanvasImages` (useAppStore.ts lines 131-138). -/
def setCanvasImages (s : AppState) (images : List Asset) : AppState :=
  { s with canvasImages := images, canvasGridLayout := freshGridLayout images }

/-- `setCanvasImagesWithAutoZoom` (useAppStore.ts lines 139-153);
`isMobile` stands for the `window.innerWidth < 768` probe. -/
def setCanvasImagesWithAutoZoom (s : AppState) (images : List Asset) (isMobile : Bool) :
    AppState :=
  { s with canvasImages := images, canvasGridLayout := freshGridLayout images,
           canvasZoom := if isMobile then 1 / 2 else 1, canvasPan := (0, 0) }

/-- `addBrushStroke` (useAppStore.ts lines 184-186). -/
def addBrushStroke (s : AppState) (stroke : BrushStroke) : AppState :=
  { s with brushStrokes := s.brushStrokes ++ [stroke] }

/-- `addGeneration` (useAppStore.ts lines 197-219): appends to the
current project, or lazily creates one holding just this generation.
`now` stands for `Date.now()`. -/
def addGeneration (s : AppState) (g : Generation) (now : Nat) : AppState :=
  match s.currentProject with
  | some pr =>
    { s with currentProject := some { pr with generations := pr.generations ++ [g],
                                              updatedAt := now } }
  | none =>
    { s with currentProject := some { id := "project-" ++ toString now,
                                      title := "Untitled Project",
                                      generations := [g], edits := [],
                                      createdAt := now, updatedAt := now } }

/-- `addEdit` (useAppStore.ts lines 221-243). -/
def addEdit (s : AppState) (e : Edit) (now : Nat) : AppState :=
  match s.currentProject with
  | some pr =>
    { s with currentProject := some { pr with edits := pr.edits ++ [e],
                                              updatedAt := now } }
  | none =>
    { s with currentProject := some { id := "project-" ++ toString now,
                                      title := "Untitled Project",
                                      generations := [], edits := [e],
                                      createdAt := now, updatedAt := now } }

/-- `clearSelection` (useAppStore.ts lines 299-306).  Note what it does
NOT touch: `seed`, `temperature`, `isGenerating`, `currentNodeDetails`. -/
def clearSelection (s : AppState) : AppState :=
  { s with selectedGenerationId := none, selectedEditId := none,
           canvasImages := [], canvasGridLayout := { order := [], columns := 1 },
           brushStrokes := [], currentPrompt := "" }

/-- Replace the first list element satisfying the predicate (the
`findIndex` + copy + assign-at-index pattern of the store). -/
def updateFirstBy (p : α → Bool) (f : α → α) : List α → List α
  | [] => []
  | x :: rest => if p x then f x :: rest else x :: updateFirstBy p f rest

/-- `saveBrushStrokesToCurrentCanvas` (useAppStore.ts lines 316-357):
snapshot the live stroke list onto the selected generation (checked
first) or the selected edit; a missing project, empty selection or
unresolvable id leaves the state unchanged. -/
def saveBrushStrokesToCurrentCanvas (s : AppState) (now : Nat) : AppState :=
  match s.currentProject with
  | none => s
  | some pr =>
    match s.selectedGenerationId with
    | some gid =>
      if pr.generations.any (fun g => g.id = gid) then
        let gens := updateFirstBy (fun g => g.id = gid)
          (fun g => { g with brushStrokes := some s.brushStrokes }) pr.generations
        { s with currentProject := some { pr with generations := gens, updatedAt := now } }
      else s
    | none =>
      match s.selectedEditId with
      | some eid =>
        if pr.edits.any (fun e => e.id = eid) then
          let eds := updateFirstBy (fun e => e.id = eid)
            (fun e => { e with brushStrokes := some s.brushStrokes }) pr.edits
          { s with currentProject := some { pr with edits := eds, updatedAt := now } }
        else s
      | none => s

/-- `loadBrushStrokesFromCanvas` (useAppStore.ts lines 359-374): the
live stroke list becomes the target node's saved list, `[]` when the
node has none (or cannot be found); a missing project is a no-op. -/
def loadBrushStrokesFromCanvas (s : AppState) (canvasId : String) (canvasType : NodeKind) :
    AppState :=
  match s.currentProject with
  | none => s
  | some pr =>
    let strokes :=
      match canvasType with
      | NodeKind.generation =>
        ((pr.generations.find? (fun g => g.id = canvasId)).bind Generation.brushStrokes).getD []
      | NodeKind.edit =>
        ((pr.edits.find? (fun e => e.id = canvasId)).bind Edit.brushStrokes).getD []
    { s with brushStrokes := strokes }

/-! ## HistoryPanel node-click handling (HistoryPanel.tsx lines 466-557) -/

/-- A display node as clicked in the tree: id plus its payload record.
The `type` field of the source display node is determined by which
payload it carries. -/
inductive ClickedNode
  | gen (g : Generation)
  | edit (e : Edit)
deriving Repr, DecidableEq

/-- The id of a clicked node. -/
def ClickedNode.id : ClickedNode → String
  | ClickedNode.gen g => g.id
  | ClickedNode.edit e => e.id

/-- A child candidate of `findMostRecentChildPrompt`, its sort key and
the prompt/instruction it contributes. -/
def childTimestamp : ClickedNode → Nat
  | ClickedNode.gen g => g.timestamp
  | ClickedNode.edit e => e.timestamp

/-- Prompt text of a child candidate (`prompt` for generations,
`instruction` for edits). -/
def childPromptText : ClickedNode → String
  | ClickedNode.gen g => g.prompt
  | ClickedNode.edit e => e.instruction

/-- The node's record (by id and kind) is present in the project, stated
the way the save path checks it (`findIndex !== -1`, i.e. `any`). -/
def hasNode (pr : Project) : ClickedNode → Prop
  | ClickedNode.gen g => pr.generations.any (fun x => x.id = g.id) = true
  | ClickedNode.edit e => pr.edits.any (fun x => x.id = e.id) = true

/-- The stroke list stored on the node's record in the project (the list
`loadBrushStrokesFromCanvas` would read, before its `|| []` default). -/
instance (pr : Project) (n : ClickedNode) : Decidable (hasNode pr n) := by
  cases n <;> (unfold hasNode; infer_instance)

/-- The stroke list stored on the node's record in the project (the list
`loadBrushStrokesFromCanvas` would read, before its `|| []` default). -/
def savedBrushStrokes (pr : Project) : ClickedNode → Option (List BrushStroke)
  | ClickedNode.gen g =>
    (pr.generations.find? (fun x => x.id = g.id)).bind Generation.brushStrokes
  | ClickedNode.edit e =>
    (pr.edits.find? (fun x => x.id = e.id)).bind Edit.brushStrokes

/-- The store selection points at the node.  The save path consults
`selectedGenerationId` first, so for an edit node the generation slot
must be empty (which the click transitions maintain). -/
def selectionMatches (s : AppState) : ClickedNode → Prop
  | ClickedNode.gen g => s.selectedGenerationId = some g.id
  | ClickedNode.edit e => s.selectedGenerationId = none ∧ s.selectedEditId = some e.id

/-- The project after `saveBrushStrokesToCurrentCanvas` snapshots the
live stroke list onto the node the selection points at. -/
def saveProj (pr : Project) (n : ClickedNode) (strokes : List BrushStroke) (now : Nat) :
    Project :=
  match n with
  | ClickedNode.gen g =>
    let gens := updateFirstBy (fun x => x.id = g.id)
      (fun x => { x with brushStrokes := some strokes }) pr.generations
    { pr with generations := gens, updatedAt := now }
  | ClickedNode.edit e =>
    let eds := updateFirstBy (fun x => x.id = e.id)
      (fun x => { x with brushStrokes := some strokes }) pr.edits
    { pr with edits := eds, updatedAt := now }

/-- First element of a stable descending sort by timestamp
(`children.sort((a,b) => b.timestamp − a.timestamp)` then `children[0]`):
the earliest-occurring element of maximal timestamp. -/
def mostRecentOf (l : List ClickedNode) : Option ClickedNode :=
  l.foldl
    (fun acc c =>
      match acc with
      | none => some c
      | some m => if childTimestamp c > childTimestamp m then some c else some m)
    none

/-- `findMostRecentChildPrompt` (HistoryPanel.tsx lines 466-494): scan
for children of the given node (for a generation parent: child
generations then child edits; for an edit parent: child edits), take the
most recent, and return its prompt/instruction — with JS `|| null`
collapsing an empty string to `none`. -/
def findMostRecentChildPrompt (pr : Option Project) (parentId : String)
    (parentType : NodeKind) : Option String :=
  match pr with
  | none => none
  | some pr =>
    let children : List ClickedNode :=
      match parentType with
      | NodeKind.generation =>
        (pr.generations.filter (fun g => g.parentGenerationId = some parentId)).map ClickedNode.gen
          ++ (pr.edits.filter (fun e => e.parentGenerationId = some parentId)).map ClickedNode.edit
      | NodeKind.edit =>
        (pr.edits.filter (fun e => e.parentEditId = some parentId)).map ClickedNode.edit
    match mostRecentOf children with
    | none => none
    | some c => if childPromptText c = "" then none else some (childPromptText c)

/-- The node-details record shown for a generation
(HistoryPanel.tsx lines 522-530). -/
def genDetails (g : Generation) : NodeDetails :=
  { prompt := g.prompt, nodeType := NodeKind.generation,
    modelVersion := some g.modelVersion,
    temperature := g.parameters.temperature, seed := g.parameters.seed,
    timestamp := g.timestamp, outputAssets := g.outputAssets }

/-- The node-details record shown for an edit
(HistoryPanel.tsx lines 547-552). -/
def editDetails (e : Edit) : NodeDetails :=
  { prompt := e.instruction, nodeType := NodeKind.edit,
    timestamp := e.timestamp, outputAssets := e.outputAssets }

/-- JS `a || b` on an optional-but-never-empty string versus a default. -/
def orElseStr (a : Option String) (b : String) : String :=
  match a with
  | some sa => sa
  | none => b

/-- `handleTreeNodeClick` (HistoryPanel.tsx lines 497-557) for a real
(non-blank-root) node: save the live strokes to the previously selected
node, select the clicked node, load its output assets (when nonempty)
and its saved strokes, publish its details and pre-populate the prompt
from its most recent child.  `now` stands for `Date.now()`. -/
def handleTreeNodeClickReal (s : AppState) (node : ClickedNode) (now : Nat) : AppState :=
  let s :=
    if s.selectedGenerationId.isSome || s.selectedEditId.isSome then
      saveBrushStrokesToCurrentCanvas s now
    else s
  let s := { s with activeNodeId := some node.id }
  match node with
  | ClickedNode.gen g =>
    let s := { s with selectedGenerationId := some g.id, selectedEditId := none }
    let s := if g.outputAssets.length > 0 then setCanvasImages s g.outputAssets else s
    let s := loadBrushStrokesFromCanvas s g.id NodeKind.generation
    let s := { s with currentNodeDetails := some (genDetails g) }
    let childPrompt := findMostRecentChildPrompt s.currentProject g.id NodeKind.generation
    { s with currentPrompt := orElseStr childPrompt g.prompt }
  | ClickedNode.edit e =>
    let s := { s with selectedEditId := some e.id, selectedGenerationId := none }
    let s := if e.outputAssets.length > 0 then setCanvasImages s e.outputAssets else s
    let s := loadBrushStrokesFromCanvas s e.id NodeKind.edit
    let s := { s with currentNodeDetails := some (editDetails e) }
    let childPrompt := findMostRecentChildPrompt s.currentProject e.id NodeKind.edit
    { s with currentPrompt := orElseStr childPrompt e.instruction }

/-- `handleTreeNodeClick` (HistoryPanel.tsx lines 497-509) when the
clicked node is the synthetic blank root: save strokes to the previously
selected node, clear the selection, clear the details and the prompt. -/
def handleTreeNodeClickBlankRoot (s : AppState) (now : Nat) : AppState :=
  let s :=
    if s.selectedGenerationId.isSome || s.selectedEditId.isSome then
      saveBrushStrokesToCurrentCanvas s now
    else s
  let s := { s with activeNodeId := some blankRootId }
  let s := clearSelection s
  let s := { s with currentNodeDetails := none }
  { s with currentPrompt := "" }

/-- `handleClearSession` (PromptComposer.tsx lines 143-150): clear the
prompt and the live strokes and reset the seed and temperature overrides
to their defaults (`null` and 0.7); the dialog flag it also resets is
component state outside this model. -/
def handleClearSession (s : AppState) : AppState :=
  { s with currentPrompt := "", brushStrokes := [],
           seed := none, temperature := 7 / 10 }

/-! ## Canvas grid geometry and stroke capture (ImageCanvas, part_008) -/

/-- `Math.ceil(n / c)` on naturals (for `c ≥ 1`). -/
def ceilDiv (n c : Nat) : Nat := (n + c - 1) / c

/-- The grid geometry a code site derives from the viewport, zoom, image
count and column count. -/
structure GridGeometry where
  gridSize : ℚ
  spacing : ℚ
  totalWidth : ℚ
  totalHeight : ℚ
  startX : ℚ
  startY : ℚ
deriving Repr, DecidableEq

/-- Grid geometry as computed in the stroke-CAPTURE path
(`handleMouseDown`/`handleMouseMove`, part_008 lines 109-122):
`baseSize = min(W,H)·0.8`, `rows = ceil(N/columns)`,
`cell = clamp(baseSize / max(columns, rows), 300, 600)`, spacing 20,
origin centred in the zoom-adjusted stage. -/
def captureGeometry (stageW stageH zoom : ℚ) (columns numImages : Nat) : GridGeometry :=
  let baseSize := min stageW stageH * (8 / 10)
  let rows := ceilDiv numImages columns
  let maxDimension := max columns rows
  let calculatedSize := if numImages > 0 then baseSize / (maxDimension : ℚ) else 600
  let gridSize := max 300 (min 600 calculatedSize)
  let spacing : ℚ := 20
  let totalWidth := (columns : ℚ) * gridSize + ((columns : ℚ) - 1) * spacing
  let rowsUsed := ceilDiv numImages columns
  let totalHeight := (rowsUsed : ℚ) * gridSize + ((rowsUsed : ℚ) - 1) * spacing
  { gridSize := gridSize, spacing := spacing,
    totalWidth := totalWidth, totalHeight := totalHeight,
    startX := (stageW / zoom - totalWidth) / 2,
    startY := (stageH / zoom - totalHeight) / 2 }

/-- Grid geometry as computed in the stroke-DISPLAY path (the
`brushStrokes.map` render block, part_008 lines 473-486), transcribed
independently from that code site. -/
def renderGeometry (stageW stageH zoom : ℚ) (columns numImages : Nat) : GridGeometry :=
  let baseSize := min stageW stageH * (8 / 10)
  let rows := ceilDiv numImages columns
  let maxDimension := max columns rows
  let calculatedSize := if numImages > 0 then baseSize / (maxDimension : ℚ) else 600
  let gridSize := max 300 (min 600 calculatedSize)
  let spacing : ℚ := 20
  let totalWidth := (columns : ℚ) * gridSize + ((columns : ℚ) - 1) * spacing
  let rowsUsed := ceilDiv numImages columns
  let totalHeight := (rowsUsed : ℚ) * gridSize + ((rowsUsed : ℚ) - 1) * spacing
  { gridSize := gridSize, spacing := spacing,
    totalWidth := totalWidth, totalHeight := totalHeight,
    startX := (stageW / zoom - totalWidth) / 2,
    startY := (stageH / zoom - totalHeight) / 2 }

/-- Capture conversion (part_008 lines 124-126): a stage-space relative
pointer position is stored grid-relative, point minus grid origin. -/
def captureToGrid (geo : GridGeometry) (p : ℚ × ℚ) : ℚ × ℚ :=
  (p.1 - geo.startX, p.2 - geo.startY)

/-- Display placement (part_008 lines 488-501): a stored grid-relative
stroke point is drawn offset by the render-path grid origin. -/
def renderToStage (geo : GridGeometry) (q : ℚ × ℚ) : ℚ × ℚ :=
  (geo.startX + q.1, geo.startY + q.2)

/-- The local drawing state of the ImageCanvas component. -/
structure CanvasState where
  isDrawing : Bool
  currentStroke : List ℚ
  brushStrokes : List BrushStroke
  brushSize : ℚ
deriving Repr, DecidableEq

/-- `handleMouseUp` (part_008 lines 166-180): with fewer than 4 captured
flat coordinates (i.e. fewer than 2 points) the in-progress stroke is
dropped; otherwise a new BrushStroke with id `stroke-${Date.now()}` is
appended.  Either way drawing stops and the buffer clears. -/
def handleMouseUp (c : CanvasState) (now : Nat) : CanvasState :=
  if ¬ c.isDrawing ∨ c.currentStroke.length < 4 then
    { c with isDrawing := false, currentStroke := [] }
  else
    { c with isDrawing := false, currentStroke := [],
             brushStrokes := c.brushStrokes ++
               [{ id := "stroke-" ++ toString now, points := c.currentStroke,
                  brushSize := c.brushSize }] }

/-! ## Mask rasterization geometry (falService, part_010 lines 519-583)

The canvas 2D rasterization itself is outside the embedding; what is
embedded is the geometry `convertBrushStrokesToMask` hands the canvas:
per stroke, the scaled polyline coordinates and the scaled line
width / vertex-circle diameter. -/

/-- Scale a flat [x0, y0, x1, y1, …] point array: even positions by
`scaleX`, odd positions by `scaleY` (as the per-point loops of
`convertBrushStrokesToMask` do). -/
def scaleFlatPoints (points : List ℚ) (scaleX scaleY : ℚ) : List ℚ :=
  (points.enum).map (fun iv => if iv.1 % 2 = 0 then iv.2 * scaleX else iv.2 * scaleY)

/-- The geometry drawn for one stroke by `convertBrushStrokesToMask`
(part_010 lines 541-578): strokes with fewer than 2 flat coordinates are
skipped; otherwise the polyline is the point list scaled by
`(scaleX, scaleY) = (width/visualGridSize, height/visualGridSize)` and
the brush size is scaled by `min scaleX scaleY`. -/
def maskStrokeGeometry (stroke : BrushStroke) (width height visualGridSize : ℚ) :
    Option (List ℚ × ℚ) :=
  let scaleX := width / visualGridSize
  let scaleY := height / visualGridSize
  if stroke.points.length < 2 then none
  else some (scaleFlatPoints stroke.points scaleX scaleY,
             stroke.brushSize * min scaleX scaleY)

/-- `convertBrushStrokesToMask` over a stroke list: the drawn geometries
in order, skipped strokes contributing nothing. -/
def convertBrushStrokesToMask (brushStrokes : List BrushStroke)
    (width height visualGridSize : ℚ) : List (List ℚ × ℚ) :=
  brushStrokes.filterMap (fun st => maskStrokeGeometry st width height visualGridSize)

/-! ## Generation/edit orchestrator (useImageGeneration / useImageEditing,
part_010 lines 1-397)

The react-query mutation lifecycle is modelled as a function of the
pre-dispatch store state and the settled outcome of the model call
(`Except` for rejection): `onMutate` raises the busy flag, `onError`
lowers it, `onSuccess` materializes the new node.  `generateId()` calls
are modelled by an id supply `fresh : Nat → String` consumed in call
order, `Date.now()` by `now`. -/

/-- Parent determination for a new Edit node, written identically at its
two code sites (useImageEditing onSuccess, part_010 lines 336-356, and
the edit branch of useImageGeneration onSuccess, part_010 lines 65-79):
a selected edit wins, else a selected generation, else the most recent
(last-listed) generation of the current project, else no parent at all. -/
def determineEditParents (selectedEditId selectedGenerationId : Option String)
    (currentProject : Option Project) : Option String × Option String :=
  match selectedEditId with
  | some e => (none, some e)
  | none =>
    match selectedGenerationId with
    | some g => (some g, none)
    | none =>
      match currentProject with
      | some pr =>
        match pr.generations.getLast? with
        | some g => (some g.id, none)
        | none => (none, none)
      | none => (none, none)

/-- An output Asset built from one returned base64 payload
(useImageEditing onSuccess, part_010 lines 315-323). -/
def mkOutputAsset (id b64 : String) : Asset :=
  { id := id, type := AssetRole.output, url := "data:image/png;base64," ++ b64,
    mime := "image/png", width := 1024, height := 1024, checksum := b64.take 32 }

/-- What the `useImageEditing` mutation function resolves with
(part_010 line 308). -/
structure EditMutationResult where
  images : List String
  maskedReferenceImage : Option String
deriving Repr, DecidableEq

/-- The output asset list built from the returned images
(`result.images.map((base64, index) => …)`). -/
def mkOutputAssets (images : List String) (fresh : Nat → String) : List Asset :=
  (images.enum).map (fun ib => mkOutputAsset (fresh ib.1) ib.2)

/-- The Edit record `useImageEditing` onSuccess materializes
(part_010 lines 360-374), named so theorems can speak about it. -/
def madeEdit (s : AppState) (res : EditMutationResult) (instruction : String)
    (fresh : Nat → String) (now : Nat) : Edit :=
  let outputAssets := mkOutputAssets res.images fresh
  let n := res.images.length
  let maskReferenceAsset : Option Asset :=
    res.maskedReferenceImage.map (fun m =>
      { id := fresh n, type := AssetRole.mask, url := "data:image/png;base64," ++ m,
        mime := "image/png", width := 1024, height := 1024, checksum := m.take 32 })
  let editIdIdx := n + (if res.maskedReferenceImage.isSome then 1 else 0)
  let parents := determineEditParents s.selectedEditId s.selectedGenerationId s.currentProject
  { id := fresh editIdIdx,
    parentGenerationId := parents.1, parentEditId := parents.2,
    maskAssetId := if s.brushStrokes.length > 0 then some (fresh (editIdIdx + 1)) else none,
    maskReferenceAsset := maskReferenceAsset,
    instruction := instruction,
    outputAssets := outputAssets,
    gridLayout := some (freshGridLayout outputAssets),
    timestamp := now,
    brushStrokes := if s.brushStrokes.length > 0 then some s.brushStrokes else none }

/-- `useImageEditing` onSuccess (part_010 lines 313-385): with at least
one returned image, build the output assets, optionally the
mask-overlay reference asset, determine the parent link, append the new
Edit to the project (creating the project if needed), load the outputs
into the canvas and select the new edit; with no images, nothing
changes.  The busy flag drops in every case. -/
def editOnSuccess (s : AppState) (res : EditMutationResult) (instruction : String)
    (fresh : Nat → String) (now : Nat) (isMobile : Bool) : AppState :=
  let s2 :=
    if res.images.length > 0 then
      let outputAssets := mkOutputAssets res.images fresh
      let e := madeEdit s res instruction fresh now
      let s1 := addEdit s e now
      let s1 := setCanvasImagesWithAutoZoom s1 outputAssets isMobile
      { s1 with selectedEditId := some e.id, selectedGenerationId := none }
    else s
  { s2 with isGenerating := false }

/-- The full `useImageEditing` mutation lifecycle around a settled model
call: `onMutate` (busy := true), then `onSuccess` or `onError`
(part_010 lines 310-389; onError only logs and clears the busy flag). -/
def runEditMutation (s : AppState) (outcome : Except String EditMutationResult)
    (instruction : String) (fresh : Nat → String) (now : Nat) (isMobile : Bool) : AppState :=
  let s1 := { s with isGenerating := true }
  match outcome with
  | Except.error _ => { s1 with isGenerating := false }
  | Except.ok res => editOnSuccess s1 res instruction fresh now isMobile

/-- The request the unified `useImageGeneration` hook receives
(part_010 lines 8-14). -/
structure UnifiedGenerationRequest where
  prompt : String
  referenceImages : Option (List String)
  temperature : Option ℚ
  seed : Option Int
  brushStrokes : Option (List BrushStroke)
deriving Repr, DecidableEq

/-- What the `useImageGeneration` mutation function resolves with
(part_010 lines 33 and 43): the edit route also carries the request's
brush strokes. -/
inductive GenMutationSuccess
  | editResult (images : List String) (brushStrokes : List BrushStroke)
  | genResult (images : List String)
deriving Repr, DecidableEq

/-- Images carried by a `useImageGeneration` success. -/
def GenMutationSuccess.images : GenMutationSuccess → List String
  | GenMutationSuccess.editResult imgs _ => imgs
  | GenMutationSuccess.genResult imgs => imgs

/-- The Edit record the edit branch of `useImageGeneration` onSuccess
materializes (part_010 lines 81-94). -/
def madeEditGenHook (s : AppState) (images : List String) (resStrokes : List BrushStroke)
    (request : UnifiedGenerationRequest) (fresh : Nat → String) (now : Nat) : Edit :=
  let outputAssets := mkOutputAssets images fresh
  let n := images.length
  let parents := determineEditParents s.selectedEditId s.selectedGenerationId s.currentProject
  { id := fresh n,
    parentGenerationId := parents.1, parentEditId := parents.2,
    maskAssetId := if resStrokes.length > 0 then some (fresh (n + 1)) else none,
    instruction := request.prompt,
    outputAssets := outputAssets,
    gridLayout := some (freshGridLayout outputAssets),
    timestamp := now,
    brushStrokes := some resStrokes }

/-- `useImageGeneration` onSuccess (part_010 lines 49-168).  The edit
branch (lines 61-102) mirrors `useImageEditing`: parent links from
`determineEditParents`, a mask asset id when the request carried brush
strokes.  The generation branch (lines 103-165) computes `parentId`
(selected generation; else the selected edit's `parentGenerationId`; a
missing parent demotes the node to kind root) and appends the new
Generation.  With no images nothing changes; the busy flag drops in
every case. -/
def genOnSuccess (s : AppState) (result : GenMutationSuccess)
    (request : UnifiedGenerationRequest) (fresh : Nat → String) (now : Nat)
    (isMobile : Bool) : AppState :=
  let s2 :=
    if result.images.length > 0 then
      let outputAssets := mkOutputAssets result.images fresh
      let n := result.images.length
      match result with
      | GenMutationSuccess.editResult imgs resStrokes =>
        let e := madeEditGenHook s imgs resStrokes request fresh now
        let s1 := addEdit s e now
        let s1 := setCanvasImagesWithAutoZoom s1 outputAssets isMobile
        let s1 := { s1 with selectedEditId := some e.id, selectedGenerationId := none }
        { s1 with currentPrompt := "" }
      | GenMutationSuccess.genResult _ =>
        let parentId : Option String :=
          match s.selectedGenerationId with
          | some gid => some gid
          | none =>
            match s.selectedEditId with
            | some eid =>
              match s.currentProject with
              | some pr =>
                match pr.edits.find? (fun e => e.id = eid) with
                | some selEdit => selEdit.parentGenerationId
                | none => none
              | none => none
            | none => none
        let isIteration := parentId.isSome
        let g : Generation :=
          { id := fresh n,
            prompt := request.prompt,
            parameters := { seed := request.seed, temperature := request.temperature },
            gridLayout := some (freshGridLayout outputAssets),
            sourceAssets :=
              match request.referenceImages with
              | some refs =>
                (refs.enum).map (fun ib =>
                  { id := fresh (n + 1 + ib.1), type := AssetRole.original,
                    url := "data:image/png;base64," ++ ib.2, mime := "image/png",
                    width := 1024, height := 1024, checksum := ib.2.take 32 })
              | none => [],
            outputAssets := outputAssets,
            modelVersion := "gemini-2.5-flash-image-preview",
            timestamp := now,
            parentGenerationId := parentId,
            type := if isIteration then GenKind.iteration else GenKind.root,
            brushStrokes := request.brushStrokes }
        let s1 := addGeneration s g now
        let s1 := setCanvasImagesWithAutoZoom s1 outputAssets isMobile
        let s1 := { s1 with selectedGenerationId := some g.id, selectedEditId := none }
        { s1 with currentPrompt := "" }
    else s
  { s2 with isGenerating := false }

/-- The full `useImageGeneration` mutation lifecycle around a settled
model call (part_010 lines 46-173; onError only logs and clears the busy
flag). -/
def runGenerateMutation (s : AppState) (outcome : Except String GenMutationSuccess)
    (request : UnifiedGenerationRequest) (fresh : Nat → String) (now : Nat)
    (isMobile : Bool) : AppState :=
  let s1 := { s with isGenerating := true }
  match outcome with
  | Except.error _ => { s1 with isGenerating := false }
  | Except.ok res => genOnSuccess s1 res request fresh now isMobile

/-- The claimed tree-linkage invariant on an Edit node: exactly one of
the two parent references is set. -/
def exactlyOneParent (e : Edit) : Prop :=
  (e.parentGenerationId.isSome ∧ e.parentEditId = none) ∨
  (e.parentGenerationId = none ∧ e.parentEditId.isSome)

instance (e : Edit) : Decidable (exactlyOneParent e) := by
  unfold exactlyOneParent; infer_instance

/-- The edit list of the (possibly absent) current project. -/
def projectEdits (s : AppState) : List Edit :=
  match s.currentProject with
  | some pr => pr.edits
  | none => []

/-- The generation list of the (possibly absent) current project. -/
def projectGenerations (s : AppState) : List Generation :=
  match s.currentProject with
  | some pr => pr.generations
  | none => []

/-! ## Concrete fixtures used by the closed witness/counterexample
theorems -/

/-- A minimal Generation fixture. -/
def sampleGen (id : String) (parent : Option String) (kind : GenKind) : Generation :=
  { id := id, prompt := "", parameters := { seed := none, temperature := none },
    sourceAssets := [], outputAssets := [], modelVersion := "", timestamp := 0,
    gridLayout := none, parentGenerationId := parent, type := kind }

/-- A minimal Edit fixture. -/
def sampleEdit (id : String) (pg pe : Option String) : Edit :=
  { id := id, parentGenerationId := pg, parentEditId := pe, maskAssetId := none,
    instruction := "", outputAssets := [], gridLayout := none, timestamp := 0 }

/-- A minimal Project fixture. -/
def mkProject (gens : List Generation) (edits : List Edit) : Project :=
  { id := "p", title := "t", generations := gens, edits := edits,
    createdAt := 0, updatedAt := 0 }

/-- A project with one root generation and one edit whose declared parent
id resolves to nothing (the dangling-parent case of C4). -/
def danglingProject : Project :=
  mkProject [sampleGen "g1" none GenKind.root] [sampleEdit "eD" (some "missing") none]

/-- A project whose two edits both carry unresolvable parent ids: both
stay at the default position (0, 0) in the display output. -/
def twoDanglingProject : Project :=
  mkProject [] [sampleEdit "e1" (some "missing") none, sampleEdit "e2" (some "missing") none]

/-- A malformed project whose parent links form a cycle that IS reachable
from the blank root: `g1` is root-kind (so it hangs off the blank root)
but also declares `g2` as parent, and `g2` declares `g1`.  The layout
recursion then revisits `g1`/`g2` forever. -/
def cyclicProject : Project :=
  mkProject [sampleGen "g1" (some "g2") GenKind.root,
             sampleGen "g2" (some "g1") GenKind.iteration] []

/-- A well-formed project: one root generation with an iteration child
and an edit child. -/
def wellFormedProject : Project :=
  mkProject [sampleGen "g1" none GenKind.root, sampleGen "g2" (some "g1") GenKind.iteration]
            [sampleEdit "e1" (some "g1") none]

/-- An initial store state (useAppStore.ts lines 102-127) over a given
project and selection. -/
def mkState (pr : Option Project) (selGen selEdit : Option String) : AppState :=
  { currentProject := pr, canvasImages := [], canvasGridLayout := { order := [], columns := 1 },
    canvasZoom := 1, canvasPan := (0, 0), brushStrokes := [], brushSize := 20,
    isGenerating := false, currentPrompt := "", temperature := 7 / 10, seed := none,
    selectedGenerationId := selGen, selectedEditId := selEdit,
    currentNodeDetails := none, activeNodeId := none }

/-! # Theorems -/

/-- C6: For every viewport size, zoom level, image count, and grid
layout, the stroke-capture path and the stroke-display path compute
identical grid geometry (cell size, spacing, grid origin
startX/startY), so a point captured at some stage position is rendered
back at that same stage position at any zoom. -/
theorem capture_render_geometry_agree (stageW stageH zoom : ℚ) (columns numImages : Nat)
    (p : ℚ × ℚ) :
    captureGeometry stageW stageH zoom columns numImages =
      renderGeometry stageW stageH zoom columns numImages ∧
    renderToStage (renderGeometry stageW stageH zoom columns numImages)
      (captureToGrid (captureGeometry stageW stageH zoom columns numImages) p) = p := by
  refine ⟨rfl, ?_⟩
  obtain ⟨px, py⟩ := p
  have hE : renderGeometry stageW stageH zoom columns numImages =
      captureGeometry stageW stageH zoom columns numImages := rfl
  simp only [renderToStage, captureToGrid, hE, Prod.mk.injEq]
  constructor <;> ring

/-- C8: If the external model call rejects, for any generation or edit
request, the orchestrator clears the busy (isGenerating) flag and the
Project's generation and edit lists are left unchanged — no node is
added to the history tree on error. -/
theorem rejection_clears_busy_preserves_tree (s : AppState) (err1 err2 : String)
    (instruction : String) (request : UnifiedGenerationRequest)
    (fresh : Nat → String) (now : Nat) (isMobile : Bool) :
    (runEditMutation s (Except.error err1) instruction fresh now isMobile).isGenerating
        = false ∧
    (runEditMutation s (Except.error err1) instruction fresh now isMobile).currentProject
        = s.currentProject ∧
    (runGenerateMutation s (Except.error err2) request fresh now isMobile).isGenerating
        = false ∧
    (runGenerateMutation s (Except.error err2) request fresh now isMobile).currentProject
        = s.currentProject :=
  ⟨rfl, rfl, rfl, rfl⟩

/-- The brush-strokes save action touches only the current project:
every other store field is preserved. -/
theorem saveBrushStrokes_only_project (s : AppState) (now : Nat) :
    ∃ p, saveBrushStrokesToCurrentCanvas s now = { s with currentProject := p } := by
  unfold saveBrushStrokesToCurrentCanvas
  repeat' split
  all_goals exact ⟨_, rfl⟩

/-- C10: Selecting the synthetic blank-root node clears the selection,
canvas images, brush strokes, and prompt text, but leaves the seed and
temperature fields of the session state unchanged; only the
clear-session handler additionally resets seed and temperature. -/
theorem blank_root_click_frame (s : AppState) (now : Nat) :
    (handleTreeNodeClickBlankRoot s now).seed = s.seed ∧
    (handleTreeNodeClickBlankRoot s now).temperature = s.temperature ∧
    (handleTreeNodeClickBlankRoot s now).selectedGenerationId = none ∧
    (handleTreeNodeClickBlankRoot s now).selectedEditId = none ∧
    (handleTreeNodeClickBlankRoot s now).canvasImages = [] ∧
    (handleTreeNodeClickBlankRoot s now).brushStrokes = [] ∧
    (handleTreeNodeClickBlankRoot s now).currentPrompt = "" ∧
    (handleTreeNodeClickBlankRoot s now).currentNodeDetails = none ∧
    (handleClearSession s).seed = none ∧
    (handleClearSession s).temperature = 7 / 10 ∧
    (handleClearSession s).currentPrompt = "" ∧
    (handleClearSession s).brushStrokes = [] := by
  obtain ⟨p, hp⟩ := saveBrushStrokes_only_project s now
  unfold handleTreeNodeClickBlankRoot
  by_cases hsel : s.selectedGenerationId.isSome || s.selectedEditId.isSome <;>
    simp [hsel, hp, clearSelection, handleClearSession]

/-- C9: On pointer-up during mask authoring, a new BrushStroke is
committed if and only if at least 2 points (4 flat coordinates) were
captured during the drag; with fewer the in-progress stroke is silently
discarded and the stroke list is unchanged. -/
theorem stroke_commit_iff_two_points (c : CanvasState) (now : Nat)
    (hdraw : c.isDrawing = true) :
    ((handleMouseUp c now).brushStrokes =
        c.brushStrokes ++
          [{ id := "stroke-" ++ toString now, points := c.currentStroke,
             brushSize := c.brushSize }] ↔
      2 ≤ c.currentStroke.length / 2) ∧
    (c.currentStroke.length / 2 < 2 →
      (handleMouseUp c now).brushStrokes = c.brushStrokes) ∧
    (handleMouseUp c now).isDrawing = false ∧
    (handleMouseUp c now).currentStroke = [] := by
  have hlen : 2 ≤ c.currentStroke.length / 2 ↔ 4 ≤ c.currentStroke.length := by omega
  unfold handleMouseUp
  by_cases h4 : c.currentStroke.length < 4
  · rw [if_pos (Or.inr h4)]
    refine ⟨?_, fun _ => rfl, rfl, rfl⟩
    rw [hlen]
    constructor
    · intro habs
      exact absurd (List.self_eq_append_right.mp habs) (by simp)
    · omega
  · rw [if_neg (by simp [hdraw, h4])]
    refine ⟨?_, fun hlt => ?_, rfl, rfl⟩
    · rw [hlen]
      simp only [iff_true_intro (by omega : 4 ≤ c.currentStroke.length), iff_true]
    · omega

/-- Witness for C9 at a concrete drag of two captured points. -/
theorem stroke_commit_iff_two_points_witness :
    ((handleMouseUp { isDrawing := true, currentStroke := [0, 0, 5, 5],
                      brushStrokes := [], brushSize := 20 } 7).brushStrokes =
        [] ++ [{ id := "stroke-" ++ toString 7, points := [0, 0, 5, 5],
                 brushSize := 20 }] ↔
      2 ≤ ([0, 0, 5, 5] : List ℚ).length / 2) ∧
    (([0, 0, 5, 5] : List ℚ).length / 2 < 2 →
      (handleMouseUp { isDrawing := true, currentStroke := [0, 0, 5, 5],
                       brushStrokes := [], brushSize := 20 } 7).brushStrokes = []) ∧
    (handleMouseUp { isDrawing := true, currentStroke := [0, 0, 5, 5],
                     brushStrokes := [], brushSize := 20 } 7).isDrawing = false ∧
    (handleMouseUp { isDrawing := true, currentStroke := [0, 0, 5, 5],
                     brushStrokes := [], brushSize := 20 } 7).currentStroke = [] :=
  stroke_commit_iff_two_points
    { isDrawing := true, currentStroke := [0, 0, 5, 5], brushStrokes := [], brushSize := 20 }
    7 rfl

/-- The scaled point array keeps the length of the captured one. -/
theorem scaleFlatPoints_length (points : List ℚ) (sx sy : ℚ) :
    (scaleFlatPoints points sx sy).length = points.length := by
  simp [scaleFlatPoints]

/-- C7 counterexample: at native size 800×400 with captured cell size
400, the stroke coordinates are scaled per axis (2 horizontally, 1
vertically) but the brush diameter comes out as
`10 · min 2 1 = 10`, NOT as the per-axis factor `10 · (800/400) = 20`:
the code scales the diameter by `min(scaleX, scaleY)`, not "by this
factor uniformly per axis" as claimed. -/
theorem mask_diameter_not_scaled_per_axis :
    maskStrokeGeometry { id := "s1", points := [0, 0, 100, 100], brushSize := 10 }
        800 400 400 =
      some (([0, 0, 200, 100] : List ℚ), (10 : ℚ)) ∧
    (10 : ℚ) ≠ 10 * (800 / 400 : ℚ) := by
  constructor
  · simp [maskStrokeGeometry, scaleFlatPoints, List.enum, List.enumFrom]
    norm_num
  · norm_num

/-- C7 amended: mask rasterization maps each stroke point (x, y) to
(x·width/visualGridSize, y·height/visualGridSize) — coordinates are
scaled per axis — while the brush diameter is scaled by the single
factor `min (width/visualGridSize) (height/visualGridSize)` (uniform
per-axis diameter scaling holds only when width = height). -/
theorem mask_scaling_coords_per_axis_diameter_min (stroke : BrushStroke)
    (w h vgs : ℚ) (hlen : 2 ≤ stroke.points.length) :
    maskStrokeGeometry stroke w h vgs =
      some (scaleFlatPoints stroke.points (w / vgs) (h / vgs),
            stroke.brushSize * min (w / vgs) (h / vgs)) ∧
    ∀ i, i < stroke.points.length →
      (scaleFlatPoints stroke.points (w / vgs) (h / vgs)).getD i 0 =
        (if i % 2 = 0 then stroke.points.getD i 0 * (w / vgs)
         else stroke.points.getD i 0 * (h / vgs)) := by
  constructor
  · unfold maskStrokeGeometry
    rw [if_neg (by omega)]
  · intro i hi
    have hlen2 : i < (scaleFlatPoints stroke.points (w / vgs) (h / vgs)).length := by
      rw [scaleFlatPoints_length]; exact hi
    rw [List.getD_eq_getElem _ _ hlen2, List.getD_eq_getElem _ _ hi]
    unfold scaleFlatPoints
    rw [List.getElem_map, List.getElem_enum]

/-- Witness for C7 amended at a concrete stroke and sizes. -/
theorem mask_scaling_coords_per_axis_diameter_min_witness :
    (maskStrokeGeometry { id := "s2", points := [1, 2, 3, 4], brushSize := 10 } 800 400 400 =
      some (scaleFlatPoints [1, 2, 3, 4] (800 / 400) (400 / 400),
            10 * min ((800 : ℚ) / 400) (400 / 400)) ∧
    ∀ i, i < ([1, 2, 3, 4] : List ℚ).length →
      (scaleFlatPoints [1, 2, 3, 4] ((800 : ℚ) / 400) (400 / 400)).getD i 0 =
        (if i % 2 = 0 then ([1, 2, 3, 4] : List ℚ).getD i 0 * (800 / 400)
         else ([1, 2, 3, 4] : List ℚ).getD i 0 * (400 / 400))) :=
  mask_scaling_coords_per_axis_diameter_min
    { id := "s2", points := [1, 2, 3, 4], brushSize := 10 } 800 400 400 (by decide)

/-- `addEdit` appends the edit to the project's edit list, creating the
project when absent. -/
theorem projectEdits_addEdit (s : AppState) (e : Edit) (now : Nat) :
    projectEdits (addEdit s e now) = projectEdits s ++ [e] := by
  unfold addEdit projectEdits
  cases s.currentProject <;> rfl

/-- A successful `useImageEditing` run appends exactly the materialized
edit to the project's edit list. -/
theorem runEditMutation_ok_edits (s : AppState) (res : EditMutationResult)
    (instr : String) (fresh : Nat → String) (now : Nat) (isMobile : Bool)
    (himg : res.images ≠ []) :
    projectEdits (runEditMutation s (Except.ok res) instr fresh now isMobile) =
      projectEdits s ++ [madeEdit s res instr fresh now] := by
  have hlen : 0 < res.images.length := List.length_pos.mpr himg
  have hm : madeEdit { s with isGenerating := true } res instr fresh now
      = madeEdit s res instr fresh now := rfl
  have hpe : ∀ st : AppState, projectEdits st = st.currentProject.elim [] Project.edits := by
    intro st
    unfold projectEdits
    cases st.currentProject <;> rfl
  simp only [runEditMutation, editOnSuccess, if_pos hlen, hm, hpe]
  cases hpr : s.currentProject with
  | none => simp [addEdit, setCanvasImagesWithAutoZoom, hpr]
  | some pr => simp [addEdit, setCanvasImagesWithAutoZoom, hpr]

/-- The parent pair `determineEditParents` returns has exactly one side
set whenever an edit is selected, a generation is selected, or the
project has at least one generation. -/
theorem determineEditParents_exactly_one (se sg : Option String) (pr : Option Project)
    (h : se.isSome ∨ sg.isSome ∨ (pr.elim [] Project.generations) ≠ []) :
    ((determineEditParents se sg pr).1.isSome ∧ (determineEditParents se sg pr).2 = none) ∨
    ((determineEditParents se sg pr).1 = none ∧ (determineEditParents se sg pr).2.isSome) := by
  unfold determineEditParents
  match se, sg, pr with
  | some e, _, _ => exact Or.inr ⟨rfl, rfl⟩
  | none, some g, _ => exact Or.inl ⟨rfl, rfl⟩
  | none, none, some pr =>
    cases hl : pr.generations.getLast? with
    | some g =>
      simp [hl]
    | none =>
      rcases h with h | h | h
      · simp at h
      · simp at h
      · exact absurd (List.getLast?_eq_none_iff.mp hl) (by simpa using h)
  | none, none, none =>
    rcases h with h | h | h
    · simp at h
    · simp at h
    · simp at h

/-- C1 counterexample: dispatching an edit with nothing selected and no
current project (so no generation to fall back to), the orchestrator
creates and adds an Edit with NEITHER `parentGenerationId` NOR
`parentEditId` set — the "never neither" part of the claim fails for
that selection state. -/
theorem edit_created_with_no_parent_link :
    (projectEdits (runEditMutation (mkState none none none)
        (Except.ok { images := ["img"], maskedReferenceImage := none })
        "recolor" (fun n => "id" ++ toString n) 5 false)).map
        (fun e => (e.parentGenerationId, e.parentEditId)) = [(none, none)] ∧
    ¬ (∀ e ∈ projectEdits (runEditMutation (mkState none none none)
          (Except.ok { images := ["img"], maskedReferenceImage := none })
          "recolor" (fun n => "id" ++ toString n) 5 false), exactlyOneParent e) := by
  constructor
  · rfl
  · decide

/-- C1 amended: every Edit node the orchestrators (the `useImageEditing`
hook and the edit branch of the unified `useImageGeneration` hook)
create and add to the Project has exactly one of `parentGenerationId`
and `parentEditId` set, PROVIDED an edit is selected, a generation is
selected, or the project holds at least one generation to fall back to;
with nothing selected and no generation the fallback sets neither. -/
theorem edit_parent_exactly_one_when_available
    (s : AppState) (res : EditMutationResult) (instr : String)
    (imgs : List String) (resStrokes : List BrushStroke)
    (request : UnifiedGenerationRequest)
    (fresh fresh2 : Nat → String) (now now2 : Nat) (isMobile isMobile2 : Bool)
    (hsel : s.selectedEditId.isSome ∨ s.selectedGenerationId.isSome ∨
            projectGenerations s ≠ [])
    (himg : res.images ≠ []) (himg2 : imgs ≠ []) :
    projectEdits (runEditMutation s (Except.ok res) instr fresh now isMobile) =
      projectEdits s ++ [madeEdit s res instr fresh now] ∧
    exactlyOneParent (madeEdit s res instr fresh now) ∧
    projectEdits (runGenerateMutation s
        (Except.ok (GenMutationSuccess.editResult imgs resStrokes))
        request fresh2 now2 isMobile2) =
      projectEdits s ++ [madeEditGenHook s imgs resStrokes request fresh2 now2] ∧
    exactlyOneParent (madeEditGenHook s imgs resStrokes request fresh2 now2) := by
  have hsel' : s.selectedEditId.isSome ∨ s.selectedGenerationId.isSome ∨
      (s.currentProject.elim [] Project.generations) ≠ [] := by
    rcases hsel with h | h | h
    · exact Or.inl h
    · exact Or.inr (Or.inl h)
    · refine Or.inr (Or.inr ?_)
      unfold projectGenerations at h
      cases hpr : s.currentProject with
      | none => rw [hpr] at h; simp at h
      | some pr => rw [hpr] at h; simpa using h
  have hone := determineEditParents_exactly_one s.selectedEditId s.selectedGenerationId
    s.currentProject hsel'
  refine ⟨runEditMutation_ok_edits s res instr fresh now isMobile himg, ?_, ?_, ?_⟩
  · unfold exactlyOneParent
    rw [show (madeEdit s res instr fresh now).parentGenerationId =
          (determineEditParents s.selectedEditId s.selectedGenerationId s.currentProject).1
          from rfl,
        show (madeEdit s res instr fresh now).parentEditId =
          (determineEditParents s.selectedEditId s.selectedGenerationId s.currentProject).2
          from rfl]
    exact hone
  · have hlen : 0 < imgs.length := List.length_pos.mpr himg2
    have hm2 : madeEditGenHook { s with isGenerating := true } imgs resStrokes request fresh2 now2
        = madeEditGenHook s imgs resStrokes request fresh2 now2 := rfl
    have hpe : ∀ st : AppState, projectEdits st = st.currentProject.elim [] Project.edits := by
      intro st
      unfold projectEdits
      cases st.currentProject <;> rfl
    simp only [runGenerateMutation, genOnSuccess, GenMutationSuccess.images, if_pos hlen,
               hm2, hpe]
    cases hpr : s.currentProject with
    | none => simp [addEdit, setCanvasImagesWithAutoZoom, hpr]
    | some pr => simp [addEdit, setCanvasImagesWithAutoZoom, hpr]
  · unfold exactlyOneParent
    rw [show (madeEditGenHook s imgs resStrokes request fresh2 now2).parentGenerationId =
          (determineEditParents s.selectedEditId s.selectedGenerationId s.currentProject).1
          from rfl,
        show (madeEditGenHook s imgs resStrokes request fresh2 now2).parentEditId =
          (determineEditParents s.selectedEditId s.selectedGenerationId s.currentProject).2
          from rfl]
    exact hone

/-- Witness for C1 amended: a generation is selected, so the new edits
hang off it. -/
theorem edit_parent_exactly_one_when_available_witness :
    projectEdits (runEditMutation
        (mkState (some (mkProject [sampleGen "g1" none GenKind.root] []))
          (some "g1") none)
        (Except.ok { images := ["i"], maskedReferenceImage := none })
        "x" (fun n => "a" ++ toString n) 9 false) =
      projectEdits (mkState (some (mkProject [sampleGen "g1" none GenKind.root] []))
          (some "g1") none) ++
        [madeEdit (mkState (some (mkProject [sampleGen "g1" none GenKind.root] []))
          (some "g1") none)
          { images := ["i"], maskedReferenceImage := none } "x"
          (fun n => "a" ++ toString n) 9] ∧
    exactlyOneParent (madeEdit
        (mkState (some (mkProject [sampleGen "g1" none GenKind.root] [])) (some "g1") none)
        { images := ["i"], maskedReferenceImage := none } "x"
        (fun n => "a" ++ toString n) 9) ∧
    projectEdits (runGenerateMutation
        (mkState (some (mkProject [sampleGen "g1" none GenKind.root] []))
          (some "g1") none)
        (Except.ok (GenMutationSuccess.editResult ["i"] []))
        { prompt := "x", referenceImages := none, temperature := none,
          seed := none, brushStrokes := none }
        (fun n => "b" ++ toString n) 9 false) =
      projectEdits (mkState (some (mkProject [sampleGen "g1" none GenKind.root] []))
          (some "g1") none) ++
        [madeEditGenHook
          (mkState (some (mkProject [sampleGen "g1" none GenKind.root] [])) (some "g1") none)
          ["i"] []
          { prompt := "x", referenceImages := none, temperature := none,
            seed := none, brushStrokes := none }
          (fun n => "b" ++ toString n) 9] ∧
    exactlyOneParent (madeEditGenHook
        (mkState (some (mkProject [sampleGen "g1" none GenKind.root] [])) (some "g1") none)
        ["i"] []
        { prompt := "x", referenceImages := none, temperature := none,
          seed := none, brushStrokes := none }
        (fun n => "b" ++ toString n) 9) :=
  edit_parent_exactly_one_when_available
    (mkState (some (mkProject [sampleGen "g1" none GenKind.root] [])) (some "g1") none)
    { images := ["i"], maskedReferenceImage := none } "x" ["i"] []
    { prompt := "x", referenceImages := none, temperature := none,
      seed := none, brushStrokes := none }
    (fun n => "a" ++ toString n) (fun n => "b" ++ toString n) 9 9 false false
    (Or.inr (Or.inl rfl)) (by simp) (by simp)

/-- The children the cycle fixture hangs off the blank root. -/
theorem cyclic_children_blank : childrenOf cyclicProject blankRootId = ["g1"] := by decide

/-- g1's children list in the cycle fixture. -/
theorem cyclic_children_g1 : childrenOf cyclicProject "g1" = ["g2"] := by decide

/-- g2's children list in the cycle fixture: back to g1. -/
theorem cyclic_children_g2 : childrenOf cyclicProject "g2" = ["g1"] := by decide

/-- The width pass never completes on the cycle members, whatever the
call depth. -/
theorem cyclic_width_nonterm (f : Nat) :
    calculateSubtreeWidth cyclicProject f "g1" = none ∧
    calculateSubtreeWidth cyclicProject f "g2" = none := by
  induction f with
  | zero => exact ⟨rfl, rfl⟩
  | succ f ih =>
    constructor
    · simp [calculateSubtreeWidth, cyclic_children_g1, traverseOption, ih.2, sampleGen]
    · simp [calculateSubtreeWidth, cyclic_children_g2, traverseOption, ih.1, sampleGen]

/-- The width pass never completes from the blank root either. -/
theorem cyclic_width_blank_none (f : Nat) :
    calculateSubtreeWidth cyclicProject f blankRootId = none := by
  cases f with
  | zero => rfl
  | succ f =>
    simp [calculateSubtreeWidth, cyclic_children_blank, traverseOption,
          (cyclic_width_nonterm f).1, sampleGen]

/-- C5 counterexample: on the malformed project whose parent links form a
cycle reachable from the blank root (a root-kind generation that also
declares a parent inside the cycle), the layout recursion never
completes at ANY call depth — the builder has no revisit detection and
does not terminate on this input. -/
theorem layout_diverges_on_reachable_cycle :
    ¬ ∃ fuel, (buildDisplayNodes cyclicProject 320 320 fuel).isSome = true := by
  rintro ⟨fuel, h⟩
  have hnone : buildDisplayNodes cyclicProject 320 320 fuel = none := by
    simp [buildDisplayNodes, treeAssignments, cyclic_width_blank_none]
  rw [hnone] at h
  simp at h

/-- A pointwise-successful traversal succeeds. -/
theorem traverseOption_isSome (g : α → Option β) (l : List α)
    (h : ∀ c ∈ l, (g c).isSome = true) : (traverseOption g l).isSome = true := by
  induction l with
  | nil => rfl
  | cons c rest ih =>
    obtain ⟨w, hw⟩ := Option.isSome_iff_exists.mp (h c (List.mem_cons_self c rest))
    obtain ⟨ws, hws⟩ :=
      Option.isSome_iff_exists.mp (ih (fun x hx => h x (List.mem_cons_of_mem c hx)))
    simp [traverseOption, hw, hws]

/-- The child-row layout succeeds when every child's positioning does. -/
theorem positionChildren_isSome (rec : String → ℚ → ℚ → Option (List Assign))
    (pairs : List (String × ℚ))
    (h : ∀ p ∈ pairs, ∀ cx y, (rec p.1 cx y).isSome = true) :
    ∀ curX y, (positionChildren rec pairs curX y).isSome = true := by
  induction pairs with
  | nil => intro curX y; rfl
  | cons p rest ih =>
    intro curX y
    obtain ⟨c, w⟩ := p
    obtain ⟨l1, hl1⟩ := Option.isSome_iff_exists.mp
      (h (c, w) (List.mem_cons_self _ _) (curX + w / 2) y)
    obtain ⟨l2, hl2⟩ := Option.isSome_iff_exists.mp
      (ih (fun q hq => h q (List.mem_cons_of_mem _ hq)) (curX + w + horizontalSpacing) y)
    simp [positionChildren, hl1, hl2]

/-- Every child id the relationship-building loops push is a key of the
treeNodes map. -/
theorem childrenOf_subset (pr : Project) (p c : String) (hc : c ∈ childrenOf pr p) :
    c ∈ treeNodeIds pr := by
  unfold childrenOf at hc
  split at hc
  · unfold treeNodeIds
    rcases List.mem_append.mp hc with h1 | h2
    · rcases List.mem_append.mp h1 with h1a | h1b
      · have h1a' : c ∈ (pr.generations.filter
            (fun g => g.type = GenKind.root)).map Generation.id := by
          by_cases hp : p = blankRootId
          · simpa [hp] using h1a
          · simp [hp] at h1a
        obtain ⟨g, hg, rfl⟩ := List.mem_map.mp h1a'
        exact List.mem_cons_of_mem _
          (List.mem_append_left _ (List.mem_map_of_mem _ (List.mem_of_mem_filter hg)))
      · obtain ⟨g, hg, rfl⟩ := List.mem_map.mp h1b
        exact List.mem_cons_of_mem _
          (List.mem_append_left _ (List.mem_map_of_mem _ (List.mem_of_mem_filter hg)))
    · obtain ⟨e, he, rfl⟩ := List.mem_map.mp h2
      exact List.mem_cons_of_mem _
        (List.mem_append_right _ (List.mem_map_of_mem _ (List.mem_of_mem_filter he)))
  · simp at hc

/-- Both layout passes complete within fuel bounded by a depth measure
that strictly decreases along the built children relation. -/
theorem layout_passes_complete (pr : Project) (d : String → Nat)
    (hd : ∀ p ∈ treeNodeIds pr, ∀ c ∈ childrenOf pr p, d c < d p) :
    ∀ fuel n, n ∈ treeNodeIds pr → d n < fuel →
      (calculateSubtreeWidth pr fuel n).isSome = true ∧
      ∀ cx y, (positionSubtree pr fuel n cx y).isSome = true := by
  intro fuel
  induction fuel with
  | zero => intro n _ h; omega
  | succ f ih =>
    intro n hn hfn
    have hrec : ∀ c ∈ childrenOf pr n,
        (calculateSubtreeWidth pr f c).isSome = true ∧
        ∀ cx y, (positionSubtree pr f c cx y).isSome = true :=
      fun c hc => ih c (childrenOf_subset pr n c hc)
        (lt_of_lt_of_le (hd n hn c hc) (Nat.lt_succ_iff.mp hfn))
    constructor
    · by_cases hcs : (childrenOf pr n).isEmpty
      · simp [calculateSubtreeWidth, hcs]
      · obtain ⟨ws, hws⟩ := Option.isSome_iff_exists.mp
          (traverseOption_isSome (calculateSubtreeWidth pr f) (childrenOf pr n)
            (fun c hc => (hrec c hc).1))
        simp [calculateSubtreeWidth, hcs, hws]
    · intro cx y
      by_cases hcs : (childrenOf pr n).isEmpty
      · simp [positionSubtree, hcs]
      · obtain ⟨ws, hws⟩ := Option.isSome_iff_exists.mp
          (traverseOption_isSome (calculateSubtreeWidth pr f) (childrenOf pr n)
            (fun c hc => (hrec c hc).1))
        obtain ⟨lc, hlc⟩ := Option.isSome_iff_exists.mp
          (positionChildren_isSome (positionSubtree pr f) ((childrenOf pr n).zip ws)
            (fun q hq => (hrec q.1 (List.of_mem_zip hq).1).2)
            (cx - (ws.foldl (· + ·) 0 +
              (((childrenOf pr n).length - 1 : Nat) : ℚ) * horizontalSpacing) / 2)
            (y + verticalSpacing))
        simp [positionSubtree, hcs, hws, hlc]

/-- C5 amended: the builder terminates — at call depth beyond the tree
depth — on every project whose built children relation allows a strictly
decreasing depth measure from the blank root (equivalently: no parent
cycle is reachable from the blank root).  There is no revisit detection:
unreachable malformed branches are dropped only because the traversal
never visits them, and a reachable cycle makes the recursion diverge
(see the counterexample). -/
theorem layout_terminates_on_measured_project (pr : Project) (d : String → Nat)
    (stageW panelW : ℚ) (fuel : Nat)
    (hd : ∀ p ∈ treeNodeIds pr, ∀ c ∈ childrenOf pr p, d c < d p)
    (hfuel : d blankRootId < fuel) :
    (buildDisplayNodes pr stageW panelW fuel).isSome = true := by
  obtain ⟨hwid, hpos⟩ := layout_passes_complete pr d hd fuel blankRootId
    (List.mem_cons_self _ _) hfuel
  obtain ⟨w, hw'⟩ := Option.isSome_iff_exists.mp hwid
  obtain ⟨l, hl⟩ := Option.isSome_iff_exists.mp
    (hpos (max 50 (((if stageW > 0 then stageW else panelW) - w) / 2) + w / 2) 50)
  simp [buildDisplayNodes, treeAssignments, hw', hl]

/-- Witness for C5 amended: the well-formed fixture with an explicit
depth measure. -/
theorem layout_terminates_on_measured_project_witness :
    (buildDisplayNodes wellFormedProject 320 320 4).isSome = true :=
  layout_terminates_on_measured_project wellFormedProject
    (fun id => if id = blankRootId then 3 else if id = "g1" then 2 else 1)
    320 320 4 (by decide) (by decide)

/-- Every completed width is at least the node width. -/
theorem width_ge (pr : Project) (f : Nat) (n : String) (w : ℚ)
    (h : calculateSubtreeWidth pr f n = some w) : nodeWidth ≤ w := by
  cases f with
  | zero => exact absurd h (by simp [calculateSubtreeWidth])
  | succ f =>
    simp only [calculateSubtreeWidth] at h
    by_cases hcs : (childrenOf pr n).isEmpty
    · simp only [hcs, if_true] at h
      exact le_of_eq (Option.some.injEq _ _ ▸ h)
    · simp only [hcs, if_false, Bool.false_eq_true] at h
      rcases htr : traverseOption (calculateSubtreeWidth pr (f)) (childrenOf pr n) with _ | ws
      · rw [htr] at h
        simp at h
      · rw [htr] at h
        simp only [Option.some.injEq] at h
        exact h ▸ le_max_left _ _

/-- A completed traversal produces one output per input. -/
theorem traverseOption_length (g : α → Option β) (l : List α) (ws : List β)
    (h : traverseOption g l = some ws) : ws.length = l.length := by
  induction l generalizing ws with
  | nil =>
    simp only [traverseOption, Option.some.injEq] at h
    simp [← h]
  | cons c rest ih =>
    simp only [traverseOption] at h
    rcases hgc : g c with _ | w
    · rw [hgc] at h
      simp at h
    · rw [hgc] at h
      rcases htr : traverseOption g rest with _ | ws'
      · rw [htr] at h
        simp at h
      · rw [htr] at h
        simp only [Option.some.injEq] at h
        rw [← h]
        simp [ih ws' htr]

/-- A completed traversal pairs each input with its own output. -/
theorem traverseOption_zip (g : α → Option β) (l : List α) (ws : List β)
    (h : traverseOption g l = some ws) : ∀ p ∈ l.zip ws, g p.1 = some p.2 := by
  induction l generalizing ws with
  | nil =>
    intro p hp
    simp at hp
  | cons c rest ih =>
    intro p hp
    simp only [traverseOption] at h
    rcases hgc : g c with _ | w
    · rw [hgc] at h
      simp at h
    · rw [hgc] at h
      rcases htr : traverseOption g rest with _ | ws'
      · rw [htr] at h
        simp at h
      · rw [htr] at h
        simp only [Option.some.injEq] at h
        rw [← h] at hp
        rcases List.mem_cons.mp hp with rfl | hp'
        · exact hgc
        · exact ih ws' htr p hp'

/-- Shift the accumulator out of a rational foldl sum. -/
theorem foldl_add_shift (l : List ℚ) (a : ℚ) :
    l.foldl (· + ·) a = a + l.foldl (· + ·) 0 := by
  induction l generalizing a with
  | nil => simp
  | cons x xs ih =>
    simp only [List.foldl_cons]
    rw [ih (a + x), ih (0 + x)]
    ring

/-- The row width of a single child is that child's subtree width. -/
theorem rowWidth_single (c : String) (w : ℚ) : rowWidth [(c, w)] = w := by
  simp [rowWidth]

/-- Peeling one child off the row adds its width plus one gap. -/
theorem rowWidth_cons (c : String) (w : ℚ) (rest : List (String × ℚ)) (hrest : rest ≠ []) :
    rowWidth ((c, w) :: rest) = w + horizontalSpacing + rowWidth rest := by
  unfold rowWidth
  simp only [List.map_cons, List.length_cons, List.foldl_cons]
  rw [foldl_add_shift _ (0 + w)]
  have h1 : ((rest.length + 1 - 1 : Nat) : ℚ) = (rest.length : ℚ) := by
    norm_num
  have h2 : ((rest.length - 1 : Nat) : ℚ) = (rest.length : ℚ) - 1 := by
    rw [Nat.cast_sub (by
      have := List.length_pos.mpr hrest
      omega)]
    norm_num
  rw [h1, h2]
  unfold horizontalSpacing
  have h3 : (1 : ℚ) ≤ (rest.length : ℚ) := by
    have := List.length_pos.mpr hrest
    exact_mod_cast this
  ring

/-- A nonempty row of genuine subtree widths is at least one node wide. -/
theorem rowWidth_ge (pairs : List (String × ℚ)) (hne : pairs ≠ [])
    (hws : ∀ p ∈ pairs, nodeWidth ≤ p.2) : nodeWidth ≤ rowWidth pairs := by
  induction pairs with
  | nil => exact absurd rfl hne
  | cons p rest ih =>
    obtain ⟨c, w⟩ := p
    have hw : nodeWidth ≤ w := hws (c, w) (List.mem_cons_self _ _)
    rcases eq_or_ne rest [] with rfl | hr
    · rw [rowWidth_single]
      exact hw
    · rw [rowWidth_cons c w rest hr]
      have hrest := ih hr (fun q hq => hws q (List.mem_cons_of_mem _ hq))
      have : (0 : ℚ) ≤ horizontalSpacing := by norm_num [horizontalSpacing]
      have : (0 : ℚ) < nodeWidth := by norm_num [nodeWidth]
      linarith

/-- Two boxes overlapping is a symmetric relation. -/
theorem boxesOverlap_symm (p q : ℚ × ℚ) (h : boxesOverlap p q) : boxesOverlap q p := by
  unfold boxesOverlap at h ⊢
  tauto

/-- Laying out a row of children keeps every produced box inside the
horizontal strip `[curX, curX + rowWidth]`, below `y`, and pairwise
non-overlapping — given that each single subtree does the same within
its own span (`ih`, the outer induction hypothesis on fuel). -/
theorem positionChildren_spec (pr : Project) (f : Nat)
    (ih : ∀ (n : String) (cx y : ℚ) (l : List Assign) (w : ℚ),
        positionSubtree pr f n cx y = some l →
        calculateSubtreeWidth pr f n = some w →
        ((∀ a ∈ l, cx - w / 2 ≤ a.2.1 ∧ a.2.1 + nodeWidth ≤ cx + w / 2 ∧ y ≤ a.2.2) ∧
         List.Pairwise (fun a b : Assign => ¬ boxesOverlap a.2 b.2) l)) :
    ∀ (pairs : List (String × ℚ)) (curX y : ℚ) (l : List Assign),
      positionChildren (positionSubtree pr f) pairs curX y = some l →
      (∀ p ∈ pairs, calculateSubtreeWidth pr f p.1 = some p.2) →
      ((∀ a ∈ l, curX ≤ a.2.1 ∧ a.2.1 + nodeWidth ≤ curX + rowWidth pairs ∧ y ≤ a.2.2) ∧
       List.Pairwise (fun a b : Assign => ¬ boxesOverlap a.2 b.2) l) := by
  intro pairs
  induction pairs with
  | nil =>
    intro curX y l h _
    have hl : l = [] := by simpa [positionChildren] using h.symm
    subst hl
    exact ⟨fun a ha => absurd ha (List.not_mem_nil a), List.Pairwise.nil⟩
  | cons p rest ihp =>
    obtain ⟨c, w⟩ := p
    intro curX y l h hws
    rcases h1 : positionSubtree pr f c (curX + w / 2) y with _ | l1
    · simp [positionChildren, h1] at h
    · rcases h2 : positionChildren (positionSubtree pr f) rest
          (curX + w + horizontalSpacing) y with _ | l2
      · simp [positionChildren, h1, h2] at h
      · have hl : l = l1 ++ l2 := by simpa [positionChildren, h1, h2] using h.symm
        subst hl
        have hwc : calculateSubtreeWidth pr f c = some w :=
          hws (c, w) (List.mem_cons_self _ _)
        obtain ⟨hb1, hp1⟩ := ih c (curX + w / 2) y l1 w h1 hwc
        obtain ⟨hb2, hp2⟩ := ihp (curX + w + horizontalSpacing) y l2 h2
          (fun q hq => hws q (List.mem_cons_of_mem _ hq))
        have hw64 : nodeWidth ≤ w := width_ge pr f c w hwc
        have hhs : (0 : ℚ) < horizontalSpacing := by norm_num [horizontalSpacing]
        have hW0 : (0 : ℚ) < nodeWidth := by norm_num [nodeWidth]
        constructor
        · intro a ha
          rcases List.mem_append.mp ha with ha1 | ha2
          · obtain ⟨hx1, hx2, hy⟩ := hb1 a ha1
            refine ⟨by linarith, ?_, hy⟩
            have hx2' : a.2.1 + nodeWidth ≤ curX + w := by linarith
            rcases eq_or_ne rest [] with rfl | hr
            · rw [rowWidth_single]
              exact hx2'
            · rw [rowWidth_cons c w rest hr]
              have hrw := rowWidth_ge rest hr
                (fun q hq => width_ge pr f q.1 q.2 (hws q (List.mem_cons_of_mem _ hq)))
              linarith
          · obtain ⟨hx1, hx2, hy⟩ := hb2 a ha2
            have hr : rest ≠ [] := by
              rintro rfl
              have : l2 = [] := by simpa [positionChildren] using h2.symm
              rw [this] at ha2
              exact absurd ha2 (List.not_mem_nil a)
            rw [rowWidth_cons c w rest hr]
            exact ⟨by linarith, by linarith, hy⟩
        · rw [List.pairwise_append]
          refine ⟨hp1, hp2, ?_⟩
          intro a ha1 b hb2'
          obtain ⟨_, hxa, _⟩ := hb1 a ha1
          obtain ⟨hxb, _, _⟩ := hb2 b hb2'
          intro hov
          have hov2 : b.2.1 < a.2.1 + nodeWidth := hov.2.1
          have hxa' : a.2.1 + nodeWidth ≤ curX + w := by linarith
          linarith

/-- The position pass confines every assignment of a subtree to the
horizontal span `[cx − w/2, cx + w/2]` of that subtree's own width, at
or below `y`, with all assigned boxes pairwise non-overlapping. -/
theorem positionSubtree_spec (pr : Project) :
    ∀ (f : Nat) (n : String) (cx y : ℚ) (l : List Assign) (w : ℚ),
      positionSubtree pr f n cx y = some l →
      calculateSubtreeWidth pr f n = some w →
      ((∀ a ∈ l, cx - w / 2 ≤ a.2.1 ∧ a.2.1 + nodeWidth ≤ cx + w / 2 ∧ y ≤ a.2.2) ∧
       List.Pairwise (fun a b : Assign => ¬ boxesOverlap a.2 b.2) l) := by
  intro f
  induction f with
  | zero =>
    intro n cx y l w h
    exact absurd h (by simp [positionSubtree])
  | succ f ihf =>
    intro n cx y l w hpos hwid
    by_cases hcs : (childrenOf pr n).isEmpty
    · have hl : l = [(n, cx - nodeWidth / 2, y)] := by
        simpa [positionSubtree, hcs] using hpos.symm
      have hw : w = nodeWidth := by
        simpa [calculateSubtreeWidth, hcs] using hwid.symm
      subst hl
      subst hw
      constructor
      · intro a ha
        rw [List.mem_singleton.mp ha]
        refine ⟨by linarith, by simp; linarith, le_refl y⟩
      · exact List.pairwise_singleton _ _
    · rcases htr : traverseOption (calculateSubtreeWidth pr f) (childrenOf pr n)
          with _ | ws
      · exact absurd hpos (by simp [positionSubtree, hcs, htr])
      · have hwix : w = max nodeWidth (ws.foldl (· + ·) 0 +
            (((childrenOf pr n).length - 1 : Nat) : ℚ) * horizontalSpacing) := by
          simpa [calculateSubtreeWidth, hcs, htr] using hwid.symm
        rcases hpc : positionChildren (positionSubtree pr f) ((childrenOf pr n).zip ws)
            (cx - (ws.foldl (· + ·) 0 +
              (((childrenOf pr n).length - 1 : Nat) : ℚ) * horizontalSpacing) / 2)
            (y + verticalSpacing) with _ | lc
        · exact absurd hpos (by simp [positionSubtree, hcs, htr, hpc])
        · have hl : l = (n, cx - nodeWidth / 2, y) :: lc := by
            simpa [positionSubtree, hcs, htr, hpc] using hpos.symm
          subst hl
          obtain ⟨hbC, hpC⟩ := positionChildren_spec pr f ihf ((childrenOf pr n).zip ws)
            (cx - (ws.foldl (· + ·) 0 +
              (((childrenOf pr n).length - 1 : Nat) : ℚ) * horizontalSpacing) / 2)
            (y + verticalSpacing) lc hpc
            (traverseOption_zip (calculateSubtreeWidth pr f) (childrenOf pr n) ws htr)
          have hlen : ws.length = (childrenOf pr n).length :=
            traverseOption_length (calculateSubtreeWidth pr f) (childrenOf pr n) ws htr
          have hrow : rowWidth ((childrenOf pr n).zip ws) =
              ws.foldl (· + ·) 0 +
                (((childrenOf pr n).length - 1 : Nat) : ℚ) * horizontalSpacing := by
            unfold rowWidth
            rw [List.map_snd_zip _ _ (le_of_eq hlen), List.length_zip, hlen, Nat.min_self]
          have hT : ws.foldl (· + ·) 0 +
              (((childrenOf pr n).length - 1 : Nat) : ℚ) * horizontalSpacing ≤ w :=
            hwix ▸ le_max_right _ _
          have hw64 : nodeWidth ≤ w := hwix ▸ le_max_left _ _
          have hvs : (0 : ℚ) < verticalSpacing := by norm_num [verticalSpacing]
          have hWvs : nodeHeight < verticalSpacing := by
            norm_num [nodeHeight, verticalSpacing]
          constructor
          · intro a ha
            rcases List.mem_cons.mp ha with rfl | haC
            · exact ⟨by linarith, by simp; linarith, le_refl y⟩
            · obtain ⟨hx1, hx2, hy⟩ := hbC a haC
              rw [hrow] at hx2
              exact ⟨by linarith, by linarith, by linarith⟩
          · refine List.pairwise_cons.mpr ⟨?_, hpC⟩
            intro b hb
            obtain ⟨_, _, hyb⟩ := hbC b hb
            intro hov
            have h4 : b.2.2 < y + nodeHeight := hov.2.2.2
            linarith

/-- C4 counterexample: the edit "eD" whose declared parent "missing"
resolves to nothing is NOT omitted from the positioned output — the
display conversion walks every map entry, so "eD" is emitted at its
never-assigned default position (0, 0) alongside the normally positioned
nodes. -/
theorem dangling_node_not_omitted :
    buildDisplayNodes danglingProject 320 320 2 =
      some [(blankRootId, (128, 50)), ("g1", (128, 130)), ("eD", (0, 0))] := by
  simp [buildDisplayNodes, treeAssignments, calculateSubtreeWidth, positionSubtree,
        positionChildren, childrenOf, inTreeNodes, treeNodeIds, danglingProject,
        mkProject, sampleGen, sampleEdit, editParentRef, traverseOption, lookupPosition,
        blankRootId, nodeWidth, horizontalSpacing, verticalSpacing, List.filter]
  norm_num

/-- C4 amended: for every Project, the builder's positioned output keeps
EVERY node of the treeNodes map (in insertion order) — a node whose
declared parent id matches no node is left unattached and keeps the
default position (0, 0) rather than being omitted, while every other
node is still positioned and rendered. -/
theorem display_keeps_all_map_nodes
    (pr : Project) (sw hw : ℚ) (fuel : Nat) (assigns : List Assign)
    (ds : List (String × ℚ × ℚ))
    (h1 : treeAssignments pr sw hw fuel = some assigns)
    (h2 : buildDisplayNodes pr sw hw fuel = some ds) :
    ds.map Prod.fst = treeNodeIds pr ∧
    ∀ a ∈ ds, a.1 ∉ assigns.map Prod.fst → a.2 = ((0 : ℚ), (0 : ℚ)) := by
  have hds : ds = (treeNodeIds pr).map (fun id => (id, lookupPosition assigns id)) := by
    unfold buildDisplayNodes at h2
    rw [h1] at h2
    exact (Option.some.injEq _ _ ▸ h2).symm
  constructor
  · rw [hds, List.map_map]
    exact List.map_id' (treeNodeIds pr)
  · intro a ha hnotin
    rw [hds] at ha
    obtain ⟨id, _, rfl⟩ := List.mem_map.mp ha
    unfold lookupPosition
    have hfil : assigns.filter (fun x => x.1 = id) = [] := by
      rw [List.filter_eq_nil_iff]
      intro x hx
      simp only [decide_eq_true_eq]
      intro hx1
      exact hnotin (List.mem_map.mpr ⟨x, hx, hx1⟩)
    rw [hfil]
    rfl

/-- Witness for C4 amended at the dangling-parent fixture. -/
theorem display_keeps_all_map_nodes_witness :
    ([(blankRootId, ((128 : ℚ), (50 : ℚ))), ("g1", (128, 130)), ("eD", (0, 0))].map Prod.fst
        = treeNodeIds danglingProject) ∧
    ∀ a ∈ [(blankRootId, ((128 : ℚ), (50 : ℚ))), ("g1", (128, 130)), ("eD", (0, 0))],
      a.1 ∉ ([(blankRootId, ((128 : ℚ), (50 : ℚ))), ("g1", (128, 130))].map Prod.fst) →
        a.2 = ((0 : ℚ), (0 : ℚ)) :=
  display_keeps_all_map_nodes danglingProject 320 320 2
    [(blankRootId, (128, 50)), ("g1", (128, 130))]
    [(blankRootId, (128, 50)), ("g1", (128, 130)), ("eD", (0, 0))]
    (by simp [treeAssignments, calculateSubtreeWidth, positionSubtree, positionChildren,
              childrenOf, inTreeNodes, treeNodeIds, danglingProject, mkProject, sampleGen,
              sampleEdit, editParentRef, traverseOption, blankRootId, nodeWidth,
              horizontalSpacing, verticalSpacing, List.filter]
        norm_num)
    (by simp [buildDisplayNodes, treeAssignments, calculateSubtreeWidth, positionSubtree,
              positionChildren, childrenOf, inTreeNodes, treeNodeIds, danglingProject,
              mkProject, sampleGen, sampleEdit, editParentRef, traverseOption,
              lookupPosition, blankRootId, nodeWidth, horizontalSpacing, verticalSpacing,
              List.filter]
        norm_num)

/-- `find?` by one key is unchanged by an `updateFirstBy` on a different
key, provided the update preserves keys. -/
theorem find?_updateFirstBy_ne (idOf : α → String) (key oid : String) (f : α → α)
    (hid : ∀ x, idOf (f x) = idOf x) (hne : key ≠ oid) (l : List α) :
    (updateFirstBy (fun x => idOf x = key) f l).find? (fun x => idOf x = oid) =
      l.find? (fun x => idOf x = oid) := by
  induction l with
  | nil => rfl
  | cons x rest ih =>
    by_cases hk : idOf x = key
    · have hxo : ¬ idOf x = oid := fun h => hne (hk ▸ h ▸ rfl)
      have hfo : ¬ idOf (f x) = oid := fun h => hxo ((hid x) ▸ h)
      rw [show updateFirstBy (fun y => decide (idOf y = key)) f (x :: rest) = f x :: rest
            from by simp only [updateFirstBy]; rw [if_pos (by simpa using hk)]]
      rw [List.find?_cons_of_neg _ (by simpa using hfo),
          List.find?_cons_of_neg _ (by simpa using hxo)]
    · rw [show updateFirstBy (fun y => decide (idOf y = key)) f (x :: rest) =
            x :: updateFirstBy (fun y => decide (idOf y = key)) f rest
            from by simp only [updateFirstBy]; rw [if_neg (by simpa using hk)]]
      by_cases ho : idOf x = oid
      · rw [List.find?_cons_of_pos _ (by simpa using ho),
            List.find?_cons_of_pos _ (by simpa using ho)]
      · rw [List.find?_cons_of_neg _ (by simpa using ho),
            List.find?_cons_of_neg _ (by simpa using ho)]
        exact ih

/-- `find?` by the updated key returns the updated element. -/
theorem find?_updateFirstBy_self (idOf : α → String) (key : String) (f : α → α)
    (hid : ∀ x, idOf (f x) = idOf x) (l : List α) :
    (updateFirstBy (fun x => idOf x = key) f l).find? (fun x => idOf x = key) =
      (l.find? (fun x => idOf x = key)).map f := by
  induction l with
  | nil => rfl
  | cons x rest ih =>
    by_cases hk : idOf x = key
    · have hfk : idOf (f x) = key := (hid x).trans hk
      rw [show updateFirstBy (fun y => decide (idOf y = key)) f (x :: rest) = f x :: rest
            from by simp only [updateFirstBy]; rw [if_pos (by simpa using hk)]]
      rw [List.find?_cons_of_pos _ (by simpa using hfk),
          List.find?_cons_of_pos _ (by simpa using hk)]
      rfl
    · rw [show updateFirstBy (fun y => decide (idOf y = key)) f (x :: rest) =
            x :: updateFirstBy (fun y => decide (idOf y = key)) f rest
            from by simp only [updateFirstBy]; rw [if_neg (by simpa using hk)]]
      rw [List.find?_cons_of_neg _ (by simpa using hk),
          List.find?_cons_of_neg _ (by simpa using hk)]
      exact ih

/-- Loading strokes never touches the project. -/
theorem load_currentProject (s : AppState) (cid : String) (t : NodeKind) :
    (loadBrushStrokesFromCanvas s cid t).currentProject = s.currentProject := by
  unfold loadBrushStrokesFromCanvas
  split <;> rfl

/-- Loading strokes does not change the selection. -/
theorem load_selection (s : AppState) (cid : String) (t : NodeKind) :
    (loadBrushStrokesFromCanvas s cid t).selectedGenerationId = s.selectedGenerationId ∧
    (loadBrushStrokesFromCanvas s cid t).selectedEditId = s.selectedEditId := by
  unfold loadBrushStrokesFromCanvas
  split <;> exact ⟨rfl, rfl⟩

/-- What the live stroke list holds after a load, phrased through
`savedBrushStrokes`. -/
theorem load_brushStrokes_gen (s : AppState) (g : Generation) (pr : Project)
    (hpr : s.currentProject = some pr) :
    (loadBrushStrokesFromCanvas s g.id NodeKind.generation).brushStrokes =
      (savedBrushStrokes pr (ClickedNode.gen g)).getD [] := by
  unfold loadBrushStrokesFromCanvas savedBrushStrokes
  simp only [hpr]

/-- Edit-node version of `load_brushStrokes_gen`. -/
theorem load_brushStrokes_edit (s : AppState) (e : Edit) (pr : Project)
    (hpr : s.currentProject = some pr) :
    (loadBrushStrokesFromCanvas s e.id NodeKind.edit).brushStrokes =
      (savedBrushStrokes pr (ClickedNode.edit e)).getD [] := by
  unfold loadBrushStrokesFromCanvas savedBrushStrokes
  simp only [hpr]

/-- After the save, the saved node carries exactly the snapshot. -/
theorem saveProj_saved_self (pr : Project) (M : ClickedNode) (str : List BrushStroke)
    (now : Nat) (hM : hasNode pr M) :
    savedBrushStrokes (saveProj pr M str now) M = some str := by
  cases M with
  | gen g =>
    simp only [savedBrushStrokes, saveProj]
    rw [find?_updateFirstBy_self Generation.id g.id
          (fun x => { x with brushStrokes := some str }) (fun x => rfl)]
    unfold hasNode at hM
    have hsome : (pr.generations.find? (fun x => x.id = g.id)).isSome := by
      rw [List.find?_isSome]
      exact List.any_eq_true.mp hM
    obtain ⟨y, hy⟩ := Option.isSome_iff_exists.mp hsome
    rw [hy]
    rfl
  | edit e =>
    simp only [savedBrushStrokes, saveProj]
    rw [find?_updateFirstBy_self Edit.id e.id
          (fun x => { x with brushStrokes := some str }) (fun x => rfl)]
    unfold hasNode at hM
    have hsome : (pr.edits.find? (fun x => x.id = e.id)).isSome := by
      rw [List.find?_isSome]
      exact List.any_eq_true.mp hM
    obtain ⟨y, hy⟩ := Option.isSome_iff_exists.mp hsome
    rw [hy]
    rfl

/-- The save leaves every other node's saved strokes untouched. -/
theorem saveProj_saved_other (pr : Project) (M N : ClickedNode) (str : List BrushStroke)
    (now : Nat) (hne : M.id ≠ N.id) :
    savedBrushStrokes (saveProj pr M str now) N = savedBrushStrokes pr N := by
  cases M with
  | gen g =>
    cases N with
    | gen g2 =>
      simp only [savedBrushStrokes, saveProj]
      rw [find?_updateFirstBy_ne Generation.id g.id g2.id
            (fun x => { x with brushStrokes := some str }) (fun x => rfl) hne]
    | edit e2 =>
      simp only [savedBrushStrokes, saveProj]
  | edit e =>
    cases N with
    | gen g2 =>
      simp only [savedBrushStrokes, saveProj]
    | edit e2 =>
      simp only [savedBrushStrokes, saveProj]
      rw [find?_updateFirstBy_ne Edit.id e.id e2.id
            (fun x => { x with brushStrokes := some str }) (fun x => rfl) hne]

/-- The save does not create or destroy nodes. -/
theorem saveProj_hasNode (pr : Project) (M N : ClickedNode) (str : List BrushStroke)
    (now : Nat) (hN : hasNode pr N) : hasNode (saveProj pr M str now) N := by
  have key : ∀ (α : Type) (idOf : α → String) (k oid : String) (f : α → α) (l : List α),
      (∀ x, idOf (f x) = idOf x) →
      l.any (fun x => idOf x = oid) = true →
      (updateFirstBy (fun x => idOf x = k) f l).any (fun x => idOf x = oid) = true := by
    intro α idOf k oid f l hid hany
    have hsome : (l.find? (fun x => idOf x = oid)).isSome := by
      rw [List.find?_isSome]
      exact List.any_eq_true.mp hany
    by_cases hko : k = oid
    · subst hko
      have := find?_updateFirstBy_self idOf k f hid l
      obtain ⟨y, hy⟩ := Option.isSome_iff_exists.mp hsome
      have hsome2 : ((updateFirstBy (fun x => idOf x = k) f l).find?
          (fun x => idOf x = k)).isSome := by
        rw [this, hy]
        rfl
      obtain ⟨z, hz⟩ := Option.isSome_iff_exists.mp hsome2
      have hzl : z ∈ updateFirstBy (fun x => idOf x = k) f l := List.mem_of_find?_eq_some hz
      have hzp := List.find?_some hz
      exact List.any_eq_true.mpr ⟨z, hzl, hzp⟩
    · have := find?_updateFirstBy_ne idOf k oid f hid hko l
      have hsome2 : ((updateFirstBy (fun x => idOf x = k) f l).find?
          (fun x => idOf x = oid)).isSome := by
        rw [this]
        exact hsome
      obtain ⟨z, hz⟩ := Option.isSome_iff_exists.mp hsome2
      have hzl : z ∈ updateFirstBy (fun x => idOf x = k) f l := List.mem_of_find?_eq_some hz
      have hzp := List.find?_some hz
      exact List.any_eq_true.mpr ⟨z, hzl, hzp⟩
  cases M with
  | gen g =>
    cases N with
    | gen g2 =>
      unfold hasNode saveProj
      unfold hasNode at hN
      exact key Generation Generation.id g.id g2.id
        (fun x => { x with brushStrokes := some str }) pr.generations (fun x => rfl) hN
    | edit e2 => exact hN
  | edit e =>
    cases N with
    | gen g2 => exact hN
    | edit e2 =>
      unfold hasNode saveProj
      unfold hasNode at hN
      exact key Edit Edit.id e.id e2.id
        (fun x => { x with brushStrokes := some str }) pr.edits (fun x => rfl) hN

/-- `saveBrushStrokesToCurrentCanvas`, characterized through `saveProj`
when the selection points at a node present in the project. -/
theorem save_spec (s : AppState) (pr : Project) (M : ClickedNode) (now : Nat)
    (hpr : s.currentProject = some pr) (hsel : selectionMatches s M)
    (hM : hasNode pr M) :
    saveBrushStrokesToCurrentCanvas s now =
      { s with currentProject := some (saveProj pr M s.brushStrokes now) } := by
  cases M with
  | gen g =>
    unfold selectionMatches at hsel
    unfold hasNode at hM
    unfold saveBrushStrokesToCurrentCanvas saveProj
    simp only [hpr, hsel, hM, if_true]
  | edit e =>
    obtain ⟨hg, he⟩ := hsel
    unfold hasNode at hM
    unfold saveBrushStrokesToCurrentCanvas saveProj
    simp only [hpr, hg, he, hM, if_true]

/-- One click on a real node, characterized: the previously selected
node's record absorbs the live strokes, the clicked node's saved strokes
become the live list, and the selection moves to the clicked node. -/
theorem click_spec (s : AppState) (pr : Project) (M N : ClickedNode) (now : Nat)
    (hpr : s.currentProject = some pr) (hsel : selectionMatches s M)
    (hM : hasNode pr M) :
    (handleTreeNodeClickReal s N now).currentProject =
      some (saveProj pr M s.brushStrokes now) ∧
    (handleTreeNodeClickReal s N now).brushStrokes =
      (savedBrushStrokes (saveProj pr M s.brushStrokes now) N).getD [] ∧
    selectionMatches (handleTreeNodeClickReal s N now) N := by
  have hguard : (s.selectedGenerationId.isSome || s.selectedEditId.isSome) = true := by
    cases M with
    | gen g =>
      unfold selectionMatches at hsel
      simp [hsel]
    | edit e =>
      obtain ⟨h1, h2⟩ := hsel
      simp [h2]
  have hsave := save_spec s pr M now hpr hsel hM
  cases N with
  | gen g =>
    refine ⟨?_, ?_, ?_⟩ <;>
      simp [handleTreeNodeClickReal, hguard, hsave, load_currentProject,
            loadBrushStrokesFromCanvas, savedBrushStrokes, setCanvasImages,
            apply_ite, selectionMatches]
  | edit e =>
    refine ⟨?_, ?_, ?_⟩ <;>
      simp [handleTreeNodeClickReal, hguard, hsave, load_currentProject,
            loadBrushStrokesFromCanvas, savedBrushStrokes, setCanvasImages,
            apply_ite, selectionMatches]

/-- Painting is pure appending: folding `addBrushStroke` appends the
painted strokes to the live list and changes nothing else. -/
theorem foldl_addBrushStroke (sm : List BrushStroke) (s : AppState) :
    sm.foldl addBrushStroke s = { s with brushStrokes := s.brushStrokes ++ sm } := by
  induction sm generalizing s with
  | nil => simp
  | cons x xs ih =>
    rw [List.foldl_cons, ih]
    simp [addBrushStroke]

/-- C3: painting k strokes while node A is selected, switching selection
to node B, painting m strokes, then switching back to A restores exactly
the original k strokes as the live list, A's record carries exactly
those k strokes, and B's record carries exactly the m strokes painted on
it: the save-on-switch / load-on-select pair is a round trip. -/
theorem brush_stroke_round_trip
    (s : AppState) (pr : Project) (A B : ClickedNode) (sm : List BrushStroke)
    (now1 now2 : Nat)
    (hpr : s.currentProject = some pr)
    (hA : hasNode pr A) (hB : hasNode pr B)
    (hAB : A.id ≠ B.id)
    (hsel : selectionMatches s A)
    (hBempty : (savedBrushStrokes pr B).getD [] = []) :
    (handleTreeNodeClickReal
        (sm.foldl addBrushStroke (handleTreeNodeClickReal s B now1)) A now2).brushStrokes
      = s.brushStrokes ∧
    ∃ pr2, (handleTreeNodeClickReal
        (sm.foldl addBrushStroke (handleTreeNodeClickReal s B now1)) A now2).currentProject
        = some pr2 ∧
      savedBrushStrokes pr2 A = some s.brushStrokes ∧
      savedBrushStrokes pr2 B = some sm := by
  obtain ⟨h1p, h1b, h1sel⟩ := click_spec s pr A B now1 hpr hsel hA
  have h1b' : (handleTreeNodeClickReal s B now1).brushStrokes = [] := by
    rw [h1b, saveProj_saved_other pr A B s.brushStrokes now1 hAB, hBempty]
  have h2 : sm.foldl addBrushStroke (handleTreeNodeClickReal s B now1) =
      { handleTreeNodeClickReal s B now1 with
        brushStrokes := (handleTreeNodeClickReal s B now1).brushStrokes ++ sm } :=
    foldl_addBrushStroke sm _
  have h2p : (sm.foldl addBrushStroke (handleTreeNodeClickReal s B now1)).currentProject =
      some (saveProj pr A s.brushStrokes now1) := by
    rw [h2]; exact h1p
  have h2sel : selectionMatches (sm.foldl addBrushStroke (handleTreeNodeClickReal s B now1)) B := by
    rw [h2]
    cases B with
    | gen g => exact h1sel
    | edit e => exact h1sel
  have h2b : (sm.foldl addBrushStroke (handleTreeNodeClickReal s B now1)).brushStrokes = sm := by
    rw [h2]
    show (handleTreeNodeClickReal s B now1).brushStrokes ++ sm = sm
    rw [h1b']
    exact List.nil_append sm
  have hB1 : hasNode (saveProj pr A s.brushStrokes now1) B :=
    saveProj_hasNode pr A B s.brushStrokes now1 hB
  obtain ⟨h3p, h3b, _⟩ :=
    click_spec (sm.foldl addBrushStroke (handleTreeNodeClickReal s B now1))
      (saveProj pr A s.brushStrokes now1) B A now2 h2p h2sel hB1
  have hBA : B.id ≠ A.id := fun h => hAB h.symm
  have hsavedA : savedBrushStrokes
      (saveProj (saveProj pr A s.brushStrokes now1) B
        (sm.foldl addBrushStroke (handleTreeNodeClickReal s B now1)).brushStrokes now2) A
      = some s.brushStrokes := by
    rw [saveProj_saved_other (saveProj pr A s.brushStrokes now1) B A _ now2 hBA]
    exact saveProj_saved_self pr A s.brushStrokes now1 hA
  refine ⟨?_, ?_⟩
  · rw [h3b, hsavedA]
    rfl
  · refine ⟨_, h3p, hsavedA, ?_⟩
    rw [saveProj_saved_self (saveProj pr A s.brushStrokes now1) B _ now2 hB1, h2b]

/-- Witness for C3: one stroke painted on generation g1, one painted on
edit e1 while it is selected, then back to g1. -/
theorem brush_stroke_round_trip_witness :
    (handleTreeNodeClickReal
        ([({ id := "sB", points := [5, 6, 7, 8], brushSize := 5 } : BrushStroke)].foldl
          addBrushStroke
          (handleTreeNodeClickReal
            { mkState (some wellFormedProject) (some "g1") none with
                brushStrokes := [{ id := "sA", points := [1, 2, 3, 4], brushSize := 5 }] }
            (ClickedNode.edit (sampleEdit "e1" (some "g1") none)) 3))
        (ClickedNode.gen (sampleGen "g1" none GenKind.root)) 4).brushStrokes
      = ({ mkState (some wellFormedProject) (some "g1") none with
            brushStrokes :=
              [{ id := "sA", points := [1, 2, 3, 4], brushSize := 5 }] } : AppState).brushStrokes ∧
    ∃ pr2, (handleTreeNodeClickReal
        ([({ id := "sB", points := [5, 6, 7, 8], brushSize := 5 } : BrushStroke)].foldl
          addBrushStroke
          (handleTreeNodeClickReal
            { mkState (some wellFormedProject) (some "g1") none with
                brushStrokes := [{ id := "sA", points := [1, 2, 3, 4], brushSize := 5 }] }
            (ClickedNode.edit (sampleEdit "e1" (some "g1") none)) 3))
        (ClickedNode.gen (sampleGen "g1" none GenKind.root)) 4).currentProject
        = some pr2 ∧
      savedBrushStrokes pr2 (ClickedNode.gen (sampleGen "g1" none GenKind.root))
        = some ({ mkState (some wellFormedProject) (some "g1") none with
            brushStrokes :=
              [{ id := "sA", points := [1, 2, 3, 4], brushSize := 5 }] } : AppState).brushStrokes ∧
      savedBrushStrokes pr2 (ClickedNode.edit (sampleEdit "e1" (some "g1") none))
        = some [({ id := "sB", points := [5, 6, 7, 8], brushSize := 5 } : BrushStroke)] :=
  brush_stroke_round_trip
    { mkState (some wellFormedProject) (some "g1") none with
        brushStrokes := [{ id := "sA", points := [1, 2, 3, 4], brushSize := 5 }] }
    wellFormedProject
    (ClickedNode.gen (sampleGen "g1" none GenKind.root))
    (ClickedNode.edit (sampleEdit "e1" (some "g1") none))
    [{ id := "sB", points := [5, 6, 7, 8], brushSize := 5 }]
    3 4 rfl (by decide) (by decide) (by decide) rfl rfl

/-- The display position of a covered id is the box of one of the
traversal's assignments for that id. -/
theorem lookupPosition_mem (assigns : List Assign) (id : String)
    (h : id ∈ assigns.map Prod.fst) :
    ∃ e ∈ assigns, e.1 = id ∧ lookupPosition assigns id = e.2 := by
  unfold lookupPosition
  have hne : assigns.filter (fun a => a.1 = id) ≠ [] := by
    obtain ⟨e, he, heid⟩ := List.mem_map.mp h
    intro hnil
    have : e ∈ assigns.filter (fun a => a.1 = id) :=
      List.mem_filter.mpr ⟨he, by simp [heid]⟩
    rw [hnil] at this
    exact absurd this (List.not_mem_nil e)
  rcases hlast : (assigns.filter (fun a => a.1 = id)).getLast? with _ | e
  · exact absurd (List.getLast?_eq_none_iff.mp hlast) hne
  · have hmemf : e ∈ assigns.filter (fun a => a.1 = id) :=
      List.mem_of_mem_getLast? hlast
    have hme := List.mem_filter.mp hmemf
    exact ⟨e, hme.1, by simpa using hme.2, by rw [hlast]⟩

/-- C2 counterexample: a Project whose two edits both declare an
unresolvable parent id places BOTH at the default position (0, 0), so
the positioned display nodes are not pairwise non-overlapping — the
no-overlap property fails on such inputs. -/
theorem display_nodes_overlap_on_dangling_input :
    buildDisplayNodes twoDanglingProject 320 320 1 =
      some [(blankRootId, (128, 50)), ("e1", (0, 0)), ("e2", (0, 0))] ∧
    ¬ List.Pairwise (fun a b : String × ℚ × ℚ => ¬ boxesOverlap a.2 b.2)
        [(blankRootId, ((128 : ℚ), (50 : ℚ))), ("e1", (0, 0)), ("e2", (0, 0))] := by
  constructor
  · simp [buildDisplayNodes, treeAssignments, calculateSubtreeWidth, positionSubtree,
          positionChildren, childrenOf, inTreeNodes, treeNodeIds, twoDanglingProject,
          mkProject, sampleEdit, editParentRef, traverseOption, lookupPosition,
          blankRootId, nodeWidth, horizontalSpacing, verticalSpacing, List.filter]
    norm_num
  · intro hp
    have h1 := (List.pairwise_cons.mp hp).2
    have h2 := (List.pairwise_cons.mp h1).1 ("e2", ((0 : ℚ), (0 : ℚ)))
      (List.mem_singleton.mpr rfl)
    refine h2 ?_
    unfold boxesOverlap nodeWidth nodeHeight
    norm_num

/-- C2 amended: whenever the layout run completes and every node of the
treeNodes map actually receives a position (all parent links resolve
into the blank root's tree — the §3 model invariant), the positioned
display nodes have pairwise non-overlapping nodeWidth × nodeHeight
boxes.  Unpositioned (dangling or cyclic) nodes all keep the default
(0, 0) and can coincide, as the counterexample shows. -/
theorem attached_display_nodes_no_overlap (pr : Project) (stageW panelW : ℚ)
    (fuel : Nat) (assigns : List Assign) (ds : List (String × ℚ × ℚ))
    (h1 : treeAssignments pr stageW panelW fuel = some assigns)
    (h2 : buildDisplayNodes pr stageW panelW fuel = some ds)
    (hnd : (treeNodeIds pr).Nodup)
    (hcov : ∀ id ∈ treeNodeIds pr, id ∈ assigns.map Prod.fst) :
    List.Pairwise (fun a b : String × ℚ × ℚ => ¬ boxesOverlap a.2 b.2) ds := by
  have hA : List.Pairwise (fun a b : Assign => ¬ boxesOverlap a.2 b.2) assigns := by
    unfold treeAssignments at h1
    rcases hw : calculateSubtreeWidth pr fuel blankRootId with _ | w
    · rw [hw] at h1
      simp at h1
    · rw [hw] at h1
      have h1' : positionSubtree pr fuel blankRootId
          (max 50 (((if stageW > 0 then stageW else panelW) - w) / 2) + w / 2) 50
          = some assigns := by simpa using h1
      exact (positionSubtree_spec pr fuel blankRootId _ 50 assigns w h1' hw).2
  have hds : ds = (treeNodeIds pr).map (fun id => (id, lookupPosition assigns id)) := by
    unfold buildDisplayNodes at h2
    rw [h1] at h2
    exact (Option.some.injEq _ _ ▸ h2).symm
  rw [hds, List.pairwise_map]
  have hsym : Symmetric (fun a b : Assign => ¬ boxesOverlap a.2 b.2) :=
    fun a b hab hba => hab (boxesOverlap_symm _ _ hba)
  refine hnd.imp_of_mem ?_
  intro a b ha hb hne
  obtain ⟨ea, hea_mem, hea_id, hea_pos⟩ := lookupPosition_mem assigns a (hcov a ha)
  obtain ⟨eb, heb_mem, heb_id, heb_pos⟩ := lookupPosition_mem assigns b (hcov b hb)
  show ¬ boxesOverlap (lookupPosition assigns a) (lookupPosition assigns b)
  rw [hea_pos, heb_pos]
  have hne' : ea ≠ eb := by
    intro hcontra
    exact hne (hea_id ▸ heb_id ▸ congrArg Prod.fst hcontra)
  exact List.Pairwise.forall hsym hA hea_mem heb_mem hne'

/-- Witness for C2 amended at the fully attached fixture (fuel 3,
viewport 320): all four display nodes are positioned and their boxes are
pairwise disjoint. -/
theorem attached_display_nodes_no_overlap_witness :
    List.Pairwise (fun a b : String × ℚ × ℚ => ¬ boxesOverlap a.2 b.2)
      [(blankRootId, ((128 : ℚ), (50 : ℚ))), ("g1", (128, 130)),
       ("g2", (88, 210)), ("e1", (168, 210))] :=
  attached_display_nodes_no_overlap wellFormedProject 320 320 3
    [(blankRootId, (128, 50)), ("g1", (128, 130)), ("g2", (88, 210)), ("e1", (168, 210))]
    [(blankRootId, (128, 50)), ("g1", (128, 130)), ("g2", (88, 210)), ("e1", (168, 210))]
    (by simp [treeAssignments, calculateSubtreeWidth, positionSubtree, positionChildren,
              childrenOf, inTreeNodes, treeNodeIds, wellFormedProject, mkProject,
              sampleGen, sampleEdit, editParentRef, traverseOption, blankRootId,
              nodeWidth, horizontalSpacing, verticalSpacing, List.filter]
        norm_num)
    (by simp [buildDisplayNodes, treeAssignments, calculateSubtreeWidth, positionSubtree,
              positionChildren, childrenOf, inTreeNodes, treeNodeIds, wellFormedProject,
              mkProject, sampleGen, sampleEdit, editParentRef, traverseOption,
              lookupPosition, blankRootId, nodeWidth, horizontalSpacing, verticalSpacing,
              List.filter]
        norm_num)
    (by decide) (by decide)

end NanoBanana
